import Mathlib

/-!
# Verification of the Sudoku solver (`src/sudoku_solver.py`)

This file gives a shallow embedding of the constraint-propagation /
backtracking Sudoku solver and proves (or refutes) the frozen claims about
it.

Representation choices:
* a cell is a pair of naturals `(row, col)`; the solver only ever touches
  cells with both coordinates `< 9`;
* the starting grid and the output grid are functions `Cell → ℕ`
  (Python: `len(9)` lists of `len(9)` lists of ints);
* the options grid is a function `Cell → Finset ℕ` (Python: lists of sets);
* the pending set `single_option_squares` is a `List Cell` handled with
  set semantics (membership-tested insertion, pop from the head); Python's
  `set.pop` order is unspecified, the list head is the resolution chosen
  by this embedding;
* every Python loop is embedded structurally; the recursion of
  `sudoku_solver_sub_func` is bounded by an explicit fuel parameter, with
  dedicated result values for fuel exhaustion, for the two places where
  the Python code can raise (the 1-element destructuring assignment in
  `single_option_processing` and the possibly-unbound local variables of
  `minimum_options_square`), for failure (`False`) and for success.
-/

set_option maxRecDepth 40000

abbrev Cell : Type := ℕ × ℕ

abbrev StartingGrid : Type := Cell → ℕ

abbrev OptionsGrid : Type := Cell → Finset ℕ

abbrev OutputGrid : Type := Cell → ℕ

/-- The cells the Python code actually stores: both coordinates below 9. -/
def inRange (p : Cell) : Prop := p.1 < 9 ∧ p.2 < 9

instance (p : Cell) : Decidable (inRange p) := by
  unfold inRange; infer_instance

/-- The digits 1–9 (`set(range(1, 10))` in the source). -/
def digits : Finset ℕ := Finset.Icc 1 9

/-- Embeds `row_col2box`: box number of a (row, column) pair. -/
def row_col2box (row_num col_num : ℕ) : ℕ :=
  3 * (row_num / 3) + col_num / 3

/-- Embeds `box2start_row_col`: upper-left cell of a box. -/
def box2start_row_col (box_num : ℕ) : ℕ × ℕ :=
  (3 * (box_num / 3), 3 * (box_num % 3))

/-- Row `r` of a grid as a list (Python: `starting_grid[r]`). -/
def rowList (g : Cell → ℕ) (r : ℕ) : List ℕ :=
  (List.range 9).map fun c => g (r, c)

/-- Column `c` of a grid as a list
(Python: `[starting_grid[i][col_num] for i in range(9)]`). -/
def colList (g : Cell → ℕ) (c : ℕ) : List ℕ :=
  (List.range 9).map fun r => g (r, c)

/-- Box `b` of a grid as a list (Python: the `delta // 3`, `delta % 3`
traversal from `box2start_row_col`). -/
def boxList (g : Cell → ℕ) (b : ℕ) : List ℕ :=
  (List.range 9).map fun d =>
    g ((box2start_row_col b).1 + d / 3, (box2start_row_col b).2 + d % 3)

/-- One group check of the validator:
`len(set(row) - {0}) == 9 - row.count(0)`. -/
def groupOk (l : List ℕ) : Bool :=
  (l.toFinset \ {0}).card == 9 - l.count 0

/-- Embeds `is_valid_starting_grid`: every row, column and box passes
`groupOk`.  The Python early `return False` is equivalent to this
conjunction of pure checks. -/
def is_valid_starting_grid (g : StartingGrid) : Bool :=
  ((List.range 9).all fun r => groupOk (rowList g r)) &&
  ((List.range 9).all fun c => groupOk (colList g c)) &&
  ((List.range 9).all fun b => groupOk (boxList g b))

/-- Embeds `is_sudoku_complete`: no square of the output grid is zero. -/
def is_sudoku_complete (out : OutputGrid) : Bool :=
  !((List.range 9).any fun r => (List.range 9).any fun c => out (r, c) == 0)

/-- Python set add on the pending list: insert only when absent. -/
def addPend (p : Cell) (l : List Cell) : List Cell :=
  if p ∈ l then l else p :: l

/-- Embeds `set(range(1, 10)) - set(row)` for each row of the starting grid. -/
def init_row_options (g : StartingGrid) (r : ℕ) : Finset ℕ :=
  digits \ (rowList g r).toFinset

/-- The missing digits of each column of the starting grid. -/
def init_col_options (g : StartingGrid) (c : ℕ) : Finset ℕ :=
  digits \ (colList g c).toFinset

/-- The missing digits of each box of the starting grid (the Python
`i`, `j` double loop appends box `3*i + j`, which is the box traversed by
`boxList` at index `b = 3*i + j`). -/
def init_box_options (g : StartingGrid) (b : ℕ) : Finset ℕ :=
  digits \ (boxList g b).toFinset

/-- The option set `initialise_grid` computes for one square: a known
square keeps its singleton, an unknown square gets the intersection of
its row, column and box missing-digit sets. -/
def initial_options (g : StartingGrid) (p : Cell) : Finset ℕ :=
  if g p ≠ 0 then {g p}
  else
    init_row_options g p.1 ∩ init_col_options g p.2 ∩
      init_box_options g (row_col2box p.1 p.2)

/-- All 81 in-range cells in row-major order. -/
def rangeCells : List Cell :=
  (List.range 9).flatMap fun r => (List.range 9).map fun c => (r, c)

/-- The pending squares produced by `initialise_grid`: unknown squares
whose option set has exactly one element, collected in row-major order. -/
def initialise_grid_pending (g : StartingGrid) : List Cell :=
  rangeCells.foldl
    (fun pend p =>
      if g p = 0 ∧ (initial_options g p).card = 1 then addPend p pend else pend)
    []

/-- Embeds `initialise_grid`: the single-option squares and the options
grid derived from the starting grid. -/
def initialise_grid (g : StartingGrid) : List Cell × OptionsGrid :=
  (initialise_grid_pending g, fun p => initial_options g p)

/-- The mutable solver state: options grid, output grid and the pending
`single_option_squares`. -/
structure SolverState where
  og : OptionsGrid
  out : OutputGrid
  pend : List Cell

/-- The row peers visited by the first elimination loop of
`single_option_processing` (`col_num != col_num2`). -/
def rowTargets (p : Cell) : List Cell :=
  ((List.range 9).filter fun c2 => c2 != p.2).map fun c2 => (p.1, c2)

/-- The column peers visited by the second elimination loop
(`row_num != row_num2`). -/
def colTargets (p : Cell) : List Cell :=
  ((List.range 9).filter fun r2 => r2 != p.1).map fun r2 => (r2, p.2)

/-- The box peers visited by the third elimination loop
(`row_num != row_num2 or col_num != col_num2`). -/
def boxTargets (p : Cell) : List Cell :=
  ((List.range 9).map fun d =>
    ((box2start_row_col (row_col2box p.1 p.2)).1 + d / 3,
     (box2start_row_col (row_col2box p.1 p.2)).2 + d % 3)).filter fun q => q != p

/-- All peers in the order the three elimination loops visit them. -/
def elimTargets (p : Cell) : List Cell :=
  rowTargets p ++ colTargets p ++ boxTargets p

/-- The common body of the three elimination loops of
`single_option_processing`: subtract the source square's option set from
each target in turn, return `none` (the Python `return False`) as soon as
a target's set becomes empty, and add targets that drop to exactly one
option (while still unknown in the output grid) to the pending list. -/
def eliminate (src : Cell) :
    List Cell → OptionsGrid → OutputGrid → List Cell →
      Option (OptionsGrid × List Cell)
  | [], og, _, pend => some (og, pend)
  | t :: ts, og, out, pend =>
    let s := og t \ og src
    let og2 := Function.update og t s
    if s.card = 0 then none
    else if s.card = 1 ∧ out t = 0 then eliminate src ts og2 out (addPend t pend)
    else eliminate src ts og2 out pend

/-- Results of `single_option_processing`. -/
inductive SopResult where
  | ok (st : SolverState)
  | failed
  | popError
  | fuelOut

/-- Embeds `single_option_processing`: pop a pending square (list head),
write its single option into the output grid — `popError` embeds the
exception the destructuring assignment raises when the set does not have
exactly one element (the match on the set's cardinality and least element
succeeds exactly when the set is a singleton, binding its unique value,
as the Python destructuring does) — then run the three elimination
loops.  The `while`
loop is driven by fuel; `fuelOut` is never reached from solver states
(each iteration fills one more output square, see the lemmas below). -/
def single_option_processing : ℕ → SolverState → SopResult
  | 0, _ => .fuelOut
  | fuel + 1, ⟨og, out, pend⟩ =>
    match pend with
    | [] => .ok ⟨og, out, []⟩
    | p :: rest =>
      match (og p).card, (og p).min with
      | 1, some v =>
        let out2 := Function.update out p v
        match eliminate p (elimTargets p) og out2 rest with
        | none => .failed
        | some (og2, pend2) => single_option_processing fuel ⟨og2, out2, pend2⟩
      | _, _ => .popError

/-- Embeds `set().union(*sets)`. -/
def unionList (l : List (Finset ℕ)) : Finset ℕ :=
  l.foldr (· ∪ ·) ∅

/-- Embeds `grid_scanning` for a given traversal order (the Python order
is a random permutation; every claim below quantifies over the order).
For the first visited square with more than one option whose option set
minus the union of its row, column or box peers' option sets is a single
digit, shrink that square to the singleton, add it to the pending list
and report `true`; report `false` if no square qualifies. -/
def grid_scanning : List Cell → OptionsGrid → List Cell →
    Bool × OptionsGrid × List Cell
  | [], og, pend => (false, og, pend)
  | p :: order, og, pend =>
    if 1 < (og p).card then
      let uniqueRow := og p \ unionList ((rowTargets p).map og)
      if uniqueRow.card = 1 then
        (true, Function.update og p uniqueRow, addPend p pend)
      else
        let uniqueCol := og p \ unionList ((colTargets p).map og)
        if uniqueCol.card = 1 then
          (true, Function.update og p uniqueCol, addPend p pend)
        else
          let uniqueBox := og p \ unionList ((boxTargets p).map og)
          if uniqueBox.card = 1 then
            (true, Function.update og p uniqueBox, addPend p pend)
          else grid_scanning order og pend
    else grid_scanning order og pend

/-- Embeds `minimum_options_square`.  The Python function leaves
`min_options_row` / `min_options_col` unassigned when no square has more
than one option and then raises `NameError` at the `return`; this is the
`none` result. -/
def minimum_options_square (og : OptionsGrid) : Option Cell :=
  (rangeCells.foldl
    (fun acc p =>
      match acc with
      | none => if 1 < (og p).card then some (p, (og p).card) else none
      | some (q, m) =>
        if 1 < (og p).card ∧ (og p).card < m then some (p, (og p).card)
        else some (q, m))
    none).map Prod.fst

/-- Results of `sudoku_solver_sub_func`. -/
inductive SolveResult where
  | solved (out : OutputGrid)
  | unsolvable
  | popError
  | minError
  | fuelOut

/-- A scan order as Python produces it: coordinates sampled from
`range(9)`, hence in range by construction. -/
abbrev RandOrder : Type := List (Fin 9 × Fin 9)

/-- Convert a sampled order to cells. -/
def toCells (o : RandOrder) : List Cell :=
  o.map fun q => ((q.1 : ℕ), (q.2 : ℕ))

/-- Row-major order, used when the supplied list of random orders is
exhausted (any resolution of the randomness is covered by quantifying
over the list). -/
def defaultScanOrder : RandOrder :=
  ((List.range 9).flatMap fun r => (List.range 9).map fun c => (r, c)).filterMap
    fun p => if h : p.1 < 9 ∧ p.2 < 9 then some (⟨p.1, h.1⟩, ⟨p.2, h.2⟩) else none

/-- Take the next random scan order. -/
def popOrder : List RandOrder → RandOrder × List RandOrder
  | [] => (defaultScanOrder, [])
  | o :: os => (o, os)

/-- Results of the `while` loop of `sudoku_solver_sub_func`. -/
inductive LoopResult where
  | solved (out : OutputGrid)
  | failed
  | popError
  | stalled (st : SolverState)
  | fuelOut

/-- Embeds the `while` loop of `sudoku_solver_sub_func`: as long as there
are pending squares (or on the very first pass), process pending squares,
return the output grid if it is complete, otherwise scan for a new forced
square.  The loop fuel (85 at every call site) is never the reason the
loop stops on solver states. -/
def solver_loop : ℕ → List RandOrder → SolverState → Bool →
    LoopResult × List RandOrder
  | 0, os, _, _ => (.fuelOut, os)
  | lf + 1, os, st, first_time =>
    if st.pend ≠ [] ∨ first_time = true then
      match single_option_processing 82 st with
      | .failed => (.failed, os)
      | .popError => (.popError, os)
      | .fuelOut => (.fuelOut, os)
      | .ok st2 =>
        if is_sudoku_complete st2.out then (.solved st2.out, os)
        else
          let o := popOrder os
          let scan := grid_scanning (toCells o.1) st2.og st2.pend
          solver_loop lf o.2 ⟨scan.2.1, st2.out, scan.2.2⟩ false
    else (.stalled st, os)

/-- The `for option in options_grid[min_row][min_col]` loop: clone the
state, force the branching square to one option, mark it pending and call
the continuation `F` (the recursive solve at one less fuel); the first
branch that does not come back `unsolvable` is returned. -/
def try_branches
    (F : List RandOrder → SolverState → SolveResult × List RandOrder)
    (og : OptionsGrid) (out : OutputGrid) (pend : List Cell) (p : Cell) :
    List ℕ → List RandOrder → SolveResult × List RandOrder
  | [], os => (.unsolvable, os)
  | v :: vs, os =>
    match F os ⟨Function.update og p {v}, out, addPend p pend⟩ with
    | (.unsolvable, os2) => try_branches F og out pend p vs os2
    | r => r

/-- Embeds `sudoku_solver_sub_func`.  `fuel` bounds the recursion depth
(one unit per recursive call); `fuelOut` reports exhaustion.  The list of
random orders feeds `grid_scanning`, one order per scan, and is threaded
through the whole search in execution order. -/
def sudoku_solver_sub_func :
    ℕ → List RandOrder → SolverState → Bool → SolveResult × List RandOrder
  | 0, os, _, _ => (.fuelOut, os)
  | fuel + 1, os, st, first_time =>
    match solver_loop 85 os st first_time with
    | (.solved out, os2) => (.solved out, os2)
    | (.failed, os2) => (.unsolvable, os2)
    | (.popError, os2) => (.popError, os2)
    | (.fuelOut, os2) => (.fuelOut, os2)
    | (.stalled st2, os2) =>
      match minimum_options_square st2.og with
      | none => (.minError, os2)
      | some p =>
        try_branches (fun os3 st3 => sudoku_solver_sub_func fuel os3 st3 false)
          st2.og st2.out st2.pend p (Finset.sort (· ≤ ·) (st2.og p)) os2

/-- The solver state `sudoku_solver` builds before calling the recursive
sub-function: `output_grid = deepcopy(starting_grid)` together with the
result of `initialise_grid`. -/
def initState (g : StartingGrid) : SolverState :=
  ⟨(initialise_grid g).2, g, (initialise_grid g).1⟩

/-- The solve entry point, stripped of GUI display: run the recursive
sub-function on the initial state with `first_time = True`. -/
def sudoku_solver (fuel : ℕ) (os : List RandOrder) (g : StartingGrid) :
    SolveResult :=
  (sudoku_solver_sub_func fuel os (initState g) true).1

/-- Build a grid function from a list of rows. -/
def mkGrid (rows : List (List ℕ)) : StartingGrid :=
  fun p => (rows.getD p.1 []).getD p.2 0

/-- The cell of box `b` visited at offset `d` by the Python box loops. -/
def box_cell (b d : ℕ) : Cell :=
  ((box2start_row_col b).1 + d / 3, (box2start_row_col b).2 + d % 3)

/-- A group of nine cells, given by its accessor on indices `0..8`, holds
no non-zero digit twice. -/
def groupNoDup (f : ℕ → ℕ) : Prop :=
  ∀ i < 9, ∀ j < 9, i ≠ j → f i ≠ 0 → f i ≠ f j

/-- Some row, column or box of the grid contains the same non-zero digit
more than once (the spec-level reading of an invalid starting grid). -/
def HasDuplicate (g : StartingGrid) : Prop :=
  (∃ r < 9, ∃ c1 < 9, ∃ c2 < 9, c1 ≠ c2 ∧ g (r, c1) ≠ 0 ∧ g (r, c1) = g (r, c2)) ∨
  (∃ c < 9, ∃ r1 < 9, ∃ r2 < 9, r1 ≠ r2 ∧ g (r1, c) ≠ 0 ∧ g (r1, c) = g (r2, c)) ∨
  (∃ b < 9, ∃ d1 < 9, ∃ d2 < 9, d1 ≠ d2 ∧ g (box_cell b d1) ≠ 0 ∧
    g (box_cell b d1) = g (box_cell b d2))

/-- A fully solved, valid grid, used as a concrete witness input. -/
def Sgrid : StartingGrid := mkGrid [
  [1,2,3,4,5,6,7,8,9],
  [4,5,6,7,8,9,1,2,3],
  [7,8,9,1,2,3,4,5,6],
  [2,3,4,5,6,7,8,9,1],
  [5,6,7,8,9,1,2,3,4],
  [8,9,1,2,3,4,5,6,7],
  [3,4,5,6,7,8,9,1,2],
  [6,7,8,9,1,2,3,4,5],
  [9,1,2,3,4,5,6,7,8]]

/-- Validator-passing grid on which the solver crashes: the three zero
squares each see all nine digits among their row, column and box peers,
so their initial option sets are empty, no square ever has more than one
option, and `minimum_options_square` returns with its locals unbound. -/
def G2grid : StartingGrid := mkGrid [
  [0,2,3,4,5,6,7,8,9],
  [4,5,6,7,8,9,1,2,3],
  [7,1,9,0,2,3,4,5,6],
  [2,3,4,5,6,7,8,9,1],
  [5,6,7,8,9,1,2,3,4],
  [8,9,1,2,3,4,5,6,7],
  [3,4,5,6,7,8,9,1,2],
  [6,7,8,9,1,2,3,4,5],
  [9,0,2,3,4,5,6,7,8]]

/-- Like `G2grid` but with square (5,5) also cleared; that square gets the
single option 4, so `single_option_processing` performs one real
propagation step while square (0,0) still holds an empty option set. -/
def G3grid : StartingGrid := mkGrid [
  [0,2,3,4,5,6,7,8,9],
  [4,5,6,7,8,9,1,2,3],
  [7,1,9,0,2,3,4,5,6],
  [2,3,4,5,6,7,8,9,1],
  [5,6,7,8,9,1,2,3,4],
  [8,9,1,2,3,0,5,6,7],
  [3,4,5,6,7,8,9,1,2],
  [6,7,8,9,1,2,3,4,5],
  [9,0,2,3,4,5,6,7,8]]

/-- An invalid but fully populated grid: `Sgrid` with square (0,0) set to
2, duplicating the 2 at (0,1) in row 0. -/
def badS : StartingGrid := mkGrid [
  [2,2,3,4,5,6,7,8,9],
  [4,5,6,7,8,9,1,2,3],
  [7,8,9,1,2,3,4,5,6],
  [2,3,4,5,6,7,8,9,1],
  [5,6,7,8,9,1,2,3,4],
  [8,9,1,2,3,4,5,6,7],
  [3,4,5,6,7,8,9,1,2],
  [6,7,8,9,1,2,3,4,5],
  [9,1,2,3,4,5,6,7,8]]

/-- Constructor tag of a `SopResult` (0 = ok). -/
def sopTag : SopResult → ℕ
  | .ok _ => 0
  | .failed => 1
  | .popError => 2
  | .fuelOut => 3

/-- Options grid of a successful `SopResult`. -/
def sopOg : SopResult → OptionsGrid
  | .ok st => st.og
  | _ => fun _ => digits

/-- Output grid of a successful `SopResult`. -/
def sopOut : SopResult → OutputGrid
  | .ok st => st.out
  | _ => fun _ => 0

/-- The starting grid has digit entries (the spec's type of grids). -/
def Digits9 (g : StartingGrid) : Prop := ∀ r < 9, ∀ c < 9, g (r, c) ≤ 9

instance (g : StartingGrid) : Decidable (Digits9 g) := by
  unfold Digits9; infer_instance

/-- Two cells share a row, a column or a box. -/
def SameGroup (p q : Cell) : Prop :=
  p.1 = q.1 ∨ p.2 = q.2 ∨ row_col2box p.1 p.2 = row_col2box q.1 q.2

/-- The set of the 81 in-range cells. -/
def cellsFinset : Finset Cell := Finset.range 9 ×ˢ Finset.range 9

/-- The number of unknown squares of an output grid. -/
def zerosCount (out : OutputGrid) : ℕ :=
  (cellsFinset.filter fun p => out p = 0).card

/-- Invariant maintained by the solver on every state it builds: pending
squares are in range, unrepeated, and hold exactly one option while their
output square is still unknown; solved output squares hold exactly their
singleton option set; and every option set only holds digits. -/
structure SolverInv (st : SolverState) : Prop where
  pendRange : ∀ p ∈ st.pend, inRange p
  pendNodup : st.pend.Nodup
  pendCard : ∀ p ∈ st.pend, (st.og p).card = 1 ∧ st.out p = 0
  confirmed : ∀ p, inRange p → st.out p ≠ 0 → st.og p = {st.out p}
  subDigits : ∀ p, inRange p → st.og p ⊆ digits

/-- Soundness invariant relating the output grid to the starting grid:
distinct solved squares of a common group hold distinct values, and the
output agrees with the starting grid on its given squares. -/
structure SInv (g : StartingGrid) (out : OutputGrid) : Prop where
  distinct : ∀ p q : Cell, inRange p → inRange q → p ≠ q → SameGroup p q →
    out p ≠ 0 → out q ≠ 0 → out p ≠ out q
  agrees : ∀ p : Cell, inRange p → g p ≠ 0 → out p = g p

/-- Solution predicate used by C5: a fully populated digit grid with no
repeated digit in any row, column or box that agrees with the starting
grid on its given squares. -/
def IsSolutionOf (sol : OutputGrid) (g : StartingGrid) : Prop :=
  (∀ r < 9, ∀ c < 9, sol (r, c) ∈ digits) ∧
  (∀ r1 < 9, ∀ c1 < 9, ∀ r2 < 9, ∀ c2 < 9,
    ((r1, c1) : Cell) ≠ (r2, c2) → SameGroup (r1, c1) (r2, c2) →
      sol (r1, c1) ≠ sol (r2, c2)) ∧
  (∀ r < 9, ∀ c < 9, g (r, c) ≠ 0 → sol (r, c) = g (r, c))

instance (p q : Cell) : Decidable (SameGroup p q) := by
  unfold SameGroup
  infer_instance

set_option synthInstance.maxSize 2000 in
set_option maxHeartbeats 1000000 in
instance (sol : OutputGrid) (g : StartingGrid) : Decidable (IsSolutionOf sol g) := by
  unfold IsSolutionOf
  infer_instance

/-- Object-level state for the frame property C7: output grids live in an
explicit heap of grid objects addressed by naturals, so that the aliasing
structure of the Python code is visible.  Address 0 holds the
caller-supplied starting grid; `output_grid = deepcopy(starting_grid)`
(line 158) and the per-branch `deepcopy(output_grid)` (line 211) allocate
fresh addresses; every write of `single_option_processing` goes through
the current branch's address.  The options grid and the pending set hold
no output-grid objects and are kept by value. -/
structure HeapState where
  heap : ℕ → OutputGrid
  nextAddr : ℕ
  addr : ℕ
  og : OptionsGrid
  pend : List Cell

/-- Result tags of the heap-level `single_option_processing`. -/
inductive HTag where
  | ok
  | failed
  | popError
  | fuelOut

/-- Heap-level `single_option_processing`: identical control flow to
`single_option_processing`, with every output-grid write performed on the
object at the state's current address. -/
def single_option_processing_heap : ℕ → HeapState → HTag × HeapState
  | 0, st => (.fuelOut, st)
  | fuel + 1, ⟨heap, next, addr, og, pend⟩ =>
    match pend with
    | [] => (.ok, ⟨heap, next, addr, og, []⟩)
    | p :: rest =>
      match (og p).card, (og p).min with
      | 1, some v =>
        let out2 := Function.update (heap addr) p v
        let heap2 := Function.update heap addr out2
        match eliminate p (elimTargets p) og out2 rest with
        | none => (.failed, ⟨heap2, next, addr, og, rest⟩)
        | some (og2, pend2) =>
          single_option_processing_heap fuel ⟨heap2, next, addr, og2, pend2⟩
      | _, _ => (.popError, ⟨heap, next, addr, og, pend⟩)

/-- Result tags of the heap-level `while` loop. -/
inductive LTagH where
  | solved
  | failed
  | popError
  | stalled
  | fuelOut

/-- Heap-level `while` loop of `sudoku_solver_sub_func`. -/
def solver_loop_heap : ℕ → List RandOrder → HeapState → Bool →
    LTagH × HeapState × List RandOrder
  | 0, os, st, _ => (.fuelOut, st, os)
  | lf + 1, os, st, first_time =>
    if st.pend ≠ [] ∨ first_time = true then
      match single_option_processing_heap 82 st with
      | (.failed, st2) => (.failed, st2, os)
      | (.popError, st2) => (.popError, st2, os)
      | (.fuelOut, st2) => (.fuelOut, st2, os)
      | (.ok, st2) =>
        if is_sudoku_complete (st2.heap st2.addr) then (.solved, st2, os)
        else
          let o := popOrder os
          let scan := grid_scanning (toCells o.1) st2.og st2.pend
          solver_loop_heap lf o.2
            ⟨st2.heap, st2.nextAddr, st2.addr, scan.2.1, scan.2.2⟩ false
    else (.stalled, st, os)

/-- Result tags of the heap-level recursive solve. -/
inductive STagH where
  | solved
  | unsolvable
  | popError
  | minError
  | fuelOut

/-- Heap-level branch loop: each branch deep-copies the parent's output
grid object into a fresh address and recurses through `F` on it. -/
def try_branches_heap
    (F : List RandOrder → HeapState → (STagH × HeapState) × List RandOrder)
    (og : OptionsGrid) (paddr : ℕ) (pend : List Cell) (p : Cell) :
    List ℕ → List RandOrder → (ℕ → OutputGrid) → ℕ →
      (STagH × HeapState) × List RandOrder
  | [], os, h, n => ((.unsolvable, ⟨h, n, paddr, og, pend⟩), os)
  | v :: vs, os, h, n =>
    match F os ⟨Function.update h n (h paddr), n + 1, n,
        Function.update og p {v}, addPend p pend⟩ with
    | ((.unsolvable, st2), os2) =>
      try_branches_heap F og paddr pend p vs os2 st2.heap st2.nextAddr
    | r => r

/-- Heap-level `sudoku_solver_sub_func`. -/
def sudoku_solver_sub_func_heap :
    ℕ → List RandOrder → HeapState → Bool → (STagH × HeapState) × List RandOrder
  | 0, os, st, _ => ((.fuelOut, st), os)
  | fuel + 1, os, st, first_time =>
    match solver_loop_heap 85 os st first_time with
    | (.solved, st2, os2) => ((.solved, st2), os2)
    | (.failed, st2, os2) => ((.unsolvable, st2), os2)
    | (.popError, st2, os2) => ((.popError, st2), os2)
    | (.fuelOut, st2, os2) => ((.fuelOut, st2), os2)
    | (.stalled, st2, os2) =>
      match minimum_options_square st2.og with
      | none => ((.minError, st2), os2)
      | some p =>
        try_branches_heap
          (fun os3 st3 => sudoku_solver_sub_func_heap fuel os3 st3 false)
          st2.og st2.addr st2.pend p (Finset.sort (· ≤ ·) (st2.og p)) os2
          st2.heap st2.nextAddr

/-- Heap-level `sudoku_solver`: address 0 holds the starting grid, the
`deepcopy` of line 158 copies its value to the fresh address 1, and the
recursive solve starts with address 1 as its output object. -/
def sudoku_solver_heap (fuel : ℕ) (os : List RandOrder) (g : StartingGrid) :
    (STagH × HeapState) × List RandOrder :=
  sudoku_solver_sub_func_heap fuel os
    ⟨Function.update (fun a => if a = 0 then g else fun _ => 0) 1 g, 2, 1,
      (initialise_grid g).2, (initialise_grid g).1⟩ true

/-- C10: `row_col2box` is `3*(row/3) + col/3` and lands in `[0,9)`;
`box2start_row_col` is `(3*(b/3), 3*(b%3))`; and `row_col2box` applied to
the start cell of box `b` gives back `b`. -/
theorem claim_C10_geometry :
    (∀ r < 9, ∀ c < 9, row_col2box r c = 3 * (r / 3) + c / 3 ∧ row_col2box r c < 9) ∧
    (∀ b < 9, box2start_row_col b = (3 * (b / 3), 3 * (b % 3)) ∧
      row_col2box (box2start_row_col b).1 (box2start_row_col b).2 = b) := by
  decide

/-- Witness for C10 at concrete inputs. -/
theorem claim_C10_geometry_witness :
    (row_col2box 4 7 = 3 * (4 / 3) + 7 / 3 ∧ row_col2box 4 7 < 9) ∧
    (box2start_row_col 5 = (3 * (5 / 3), 3 * (5 % 3)) ∧
      row_col2box (box2start_row_col 5).1 (box2start_row_col 5).2 = 5) :=
  ⟨claim_C10_geometry.1 4 (by decide) 7 (by decide),
   claim_C10_geometry.2 5 (by decide)⟩

lemma two_le_length_of_two_mem {l : List ℕ} {i j : ℕ} (hi : i ∈ l) (hj : j ∈ l)
    (hij : i ≠ j) : 2 ≤ l.length := by
  match l with
  | [] => cases hi
  | [a] =>
    rw [List.mem_singleton] at hi hj
    exact absurd (hi.trans hj.symm) hij
  | _ :: _ :: _ => simp [List.length]

lemma exists_two_mem_of_nodup {l : List ℕ} (hn : l.Nodup) (hl : 2 ≤ l.length) :
    ∃ i ∈ l, ∃ j ∈ l, i ≠ j := by
  match l with
  | [] => simp at hl
  | [a] => simp at hl
  | a :: b :: t =>
    refine ⟨a, by simp, b, by simp, fun h => ?_⟩
    exact (List.nodup_cons.mp hn).1 (h ▸ List.mem_cons_self b t)

lemma nodup_filter_iff_groupNoDup (f : ℕ → ℕ) :
    (((List.range 9).map f).filter fun x => x != 0).Nodup ↔ groupNoDup f := by
  rw [List.nodup_iff_count_le_one]
  constructor
  · intro h i hi j hj hij hi0 hEq
    have hcnt := h (f i)
    rw [List.count_filter (by simpa using hi0)] at hcnt
    have hcp : List.count (f i) ((List.range 9).map f) =
        List.countP (fun x => f x == f i) (List.range 9) := by
      rw [List.count_eq_countP, List.countP_map]; rfl
    rw [hcp, List.countP_eq_length_filter] at hcnt
    have hmi : i ∈ (List.range 9).filter fun x => f x == f i := by
      simp [List.mem_filter, List.mem_range, hi]
    have hmj : j ∈ (List.range 9).filter fun x => f x == f i := by
      simp [List.mem_filter, List.mem_range, hj, hEq]
    exact absurd (two_le_length_of_two_mem hmi hmj hij) (by omega)
  · intro h v
    by_contra hc
    push_neg at hc
    have hv0 : v ≠ 0 := by
      intro h0
      subst h0
      have : (0 : ℕ) ∉ ((List.range 9).map f).filter fun x => x != 0 := by
        simp [List.mem_filter]
      rw [List.count_eq_zero.mpr this] at hc
      omega
    rw [List.count_filter (by simpa using hv0)] at hc
    have hcp : List.count v ((List.range 9).map f) =
        List.countP (fun x => f x == v) (List.range 9) := by
      rw [List.count_eq_countP, List.countP_map]; rfl
    rw [hcp, List.countP_eq_length_filter] at hc
    have hlen2 : 2 ≤ ((List.range 9).filter fun x => f x == v).length := by omega
    obtain ⟨i, hi, j, hj, hij⟩ :=
      exists_two_mem_of_nodup ((List.nodup_range 9).filter _) hlen2
    rw [List.mem_filter, List.mem_range] at hi hj
    have hfi : f i = v := by simpa using hi.2
    have hfj : f j = v := by simpa using hj.2
    exact h i hi.1 j hj.1 hij (hfi ▸ hv0) (hfi.trans hfj.symm)

lemma distinct_count_iff_groupNoDup (f : ℕ → ℕ) :
    ((((List.range 9).map f).toFinset \ {0}).card =
        (((List.range 9).map f).filter fun x => x != 0).length) ↔ groupNoDup f := by
  set l := (List.range 9).map f with hl
  set m := l.filter fun x => x != 0 with hm
  have h1 : l.toFinset \ {0} = m.toFinset := by
    ext a
    simp [hm, Finset.mem_sdiff, List.mem_toFinset, List.mem_filter]
  rw [h1, List.card_toFinset]
  constructor
  · intro h
    rw [← nodup_filter_iff_groupNoDup]
    have hd := (List.dedup_sublist m).eq_of_length h
    rw [← hm, ← hd]
    exact List.nodup_dedup m
  · intro h
    rw [List.dedup_eq_self.mpr ((nodup_filter_iff_groupNoDup f).mpr h)]

lemma count_zero_add_filter_length (l : List ℕ) :
    l.count 0 + (l.filter fun x => x != 0).length = l.length := by
  induction l with
  | nil => simp
  | cons a t ih =>
    by_cases ha : a = 0
    · subst ha
      simp only [List.count_cons, List.filter_cons, List.length_cons, beq_self_eq_true,
        if_true, bne_self_eq_false, Bool.false_eq_true, if_false]
      omega
    · have h2 : (a != 0) = true := by simpa using ha
      have h0 : ((a : ℕ) == 0) = false := beq_eq_false_iff_ne.mpr ha
      simp only [List.count_cons, List.filter_cons, h2, h0, if_true, Bool.false_eq_true,
        if_false, List.length_cons]
      omega

lemma groupOk_iff_groupNoDup (f : ℕ → ℕ) :
    groupOk ((List.range 9).map f) = true ↔ groupNoDup f := by
  have hlen : ((List.range 9).map f).length = 9 := by simp
  have hc := count_zero_add_filter_length ((List.range 9).map f)
  rw [hlen] at hc
  rw [groupOk, beq_iff_eq, show 9 - ((List.range 9).map f).count 0 =
    (((List.range 9).map f).filter fun x => x != 0).length by omega]
  exact distinct_count_iff_groupNoDup f

lemma rowList_eq_map (g : StartingGrid) (r : ℕ) :
    rowList g r = (List.range 9).map fun c => g (r, c) := rfl

lemma colList_eq_map (g : StartingGrid) (c : ℕ) :
    colList g c = (List.range 9).map fun r => g (r, c) := rfl

lemma boxList_eq_map (g : StartingGrid) (b : ℕ) :
    boxList g b = (List.range 9).map fun d => g (box_cell b d) := rfl

lemma is_valid_iff_groupNoDup (g : StartingGrid) :
    is_valid_starting_grid g = true ↔
      (∀ r < 9, groupNoDup fun c => g (r, c)) ∧
      (∀ c < 9, groupNoDup fun r => g (r, c)) ∧
      (∀ b < 9, groupNoDup fun d => g (box_cell b d)) := by
  rw [is_valid_starting_grid]
  simp only [Bool.and_eq_true, List.all_eq_true, List.mem_range]
  rw [forall_congr' fun r => forall_congr' fun _ =>
      (rowList_eq_map g r ▸ groupOk_iff_groupNoDup fun c => g (r, c) :
        groupOk (rowList g r) = true ↔ _)]
  constructor
  · rintro ⟨⟨hr, hc⟩, hb⟩
    refine ⟨hr, fun c hc9 => ?_, fun b hb9 => ?_⟩
    · exact (colList_eq_map g c ▸ groupOk_iff_groupNoDup fun r => g (r, c)).mp (hc c hc9)
    · exact (boxList_eq_map g b ▸ groupOk_iff_groupNoDup fun d => g (box_cell b d)).mp (hb b hb9)
  · rintro ⟨hr, hc, hb⟩
    refine ⟨⟨hr, fun c hc9 => ?_⟩, fun b hb9 => ?_⟩
    · exact (colList_eq_map g c ▸ groupOk_iff_groupNoDup fun r => g (r, c)).mpr (hc c hc9)
    · exact (boxList_eq_map g b ▸ groupOk_iff_groupNoDup fun d => g (box_cell b d)).mpr (hb b hb9)

lemma is_valid_false_iff_HasDuplicate (g : StartingGrid) :
    is_valid_starting_grid g = false ↔ HasDuplicate g := by
  rw [← Bool.not_eq_true, is_valid_iff_groupNoDup, not_and_or, not_and_or]
  unfold groupNoDup HasDuplicate
  push_neg
  rfl

/-- C3: the validator returns False exactly when some row, column or box
repeats a non-zero digit, and returns True exactly when, in each of the
27 groups, the number of distinct non-zero digits equals the number of
non-zero squares — independent of solvability. -/
theorem claim_C3_validator (g : StartingGrid) (hg : ∀ r < 9, ∀ c < 9, g (r, c) ≤ 9) :
    (is_valid_starting_grid g = false ↔ HasDuplicate g) ∧
    (is_valid_starting_grid g = true ↔
      (∀ r < 9, ((rowList g r).toFinset \ {0}).card =
        ((rowList g r).filter fun x => x != 0).length) ∧
      (∀ c < 9, ((colList g c).toFinset \ {0}).card =
        ((colList g c).filter fun x => x != 0).length) ∧
      (∀ b < 9, ((boxList g b).toFinset \ {0}).card =
        ((boxList g b).filter fun x => x != 0).length)) := by
  refine ⟨is_valid_false_iff_HasDuplicate g, ?_⟩
  rw [is_valid_iff_groupNoDup]
  constructor
  · rintro ⟨hr, hc, hb⟩
    refine ⟨fun r h9 => ?_, fun c h9 => ?_, fun b h9 => ?_⟩
    · rw [rowList_eq_map]; exact (distinct_count_iff_groupNoDup _).mpr (hr r h9)
    · rw [colList_eq_map]; exact (distinct_count_iff_groupNoDup _).mpr (hc c h9)
    · rw [boxList_eq_map]; exact (distinct_count_iff_groupNoDup _).mpr (hb b h9)
  · rintro ⟨hr, hc, hb⟩
    refine ⟨fun r h9 => ?_, fun c h9 => ?_, fun b h9 => ?_⟩
    · have h := hr r h9; rw [rowList_eq_map] at h
      exact (distinct_count_iff_groupNoDup _).mp h
    · have h := hc c h9; rw [colList_eq_map] at h
      exact (distinct_count_iff_groupNoDup _).mp h
    · have h := hb b h9; rw [boxList_eq_map] at h
      exact (distinct_count_iff_groupNoDup _).mp h

/-- Witness for C3: a concrete digit grid. -/
theorem claim_C3_validator_witness :
    (∀ r < 9, ∀ c < 9, Sgrid (r, c) ≤ 9) ∧
    ((is_valid_starting_grid Sgrid = false ↔ HasDuplicate Sgrid) ∧
    (is_valid_starting_grid Sgrid = true ↔
      (∀ r < 9, ((rowList Sgrid r).toFinset \ {0}).card =
        ((rowList Sgrid r).filter fun x => x != 0).length) ∧
      (∀ c < 9, ((colList Sgrid c).toFinset \ {0}).card =
        ((colList Sgrid c).filter fun x => x != 0).length) ∧
      (∀ b < 9, ((boxList Sgrid b).toFinset \ {0}).card =
        ((boxList Sgrid b).filter fun x => x != 0).length))) :=
  ⟨by decide, claim_C3_validator Sgrid (by decide)⟩

lemma mem_unionList {x : ℕ} {L : List (Finset ℕ)} : x ∈ unionList L ↔ ∃ s ∈ L, x ∈ s := by
  induction L with
  | nil => simp [unionList]
  | cons a t ih =>
    show x ∈ a ∪ unionList t ↔ _
    simp [Finset.mem_union, ih]

lemma not_mem_unionList_map {d : ℕ} {og : OptionsGrid} {L : List Cell} :
    d ∉ unionList (L.map og) ↔ ∀ q ∈ L, d ∉ og q := by
  simp only [mem_unionList, List.mem_map, not_exists, not_and]
  constructor
  · intro h q hq hd
    exact h (og q) ⟨q, hq, rfl⟩ hd
  · rintro h s ⟨q, hq, rfl⟩ hd
    exact h q hq hd

lemma mem_rowTargets {p q : Cell} :
    q ∈ rowTargets p ↔ ∃ c2, c2 < 9 ∧ c2 ≠ p.2 ∧ q = (p.1, c2) := by
  simp only [rowTargets, List.mem_map, List.mem_filter, List.mem_range, bne_iff_ne]
  constructor
  · rintro ⟨c2, ⟨h9, hne⟩, rfl⟩; exact ⟨c2, h9, hne, rfl⟩
  · rintro ⟨c2, h9, hne, rfl⟩; exact ⟨c2, ⟨h9, hne⟩, rfl⟩

lemma mem_colTargets {p q : Cell} :
    q ∈ colTargets p ↔ ∃ r2, r2 < 9 ∧ r2 ≠ p.1 ∧ q = (r2, p.2) := by
  simp only [colTargets, List.mem_map, List.mem_filter, List.mem_range, bne_iff_ne]
  constructor
  · rintro ⟨r2, ⟨h9, hne⟩, rfl⟩; exact ⟨r2, h9, hne, rfl⟩
  · rintro ⟨r2, h9, hne, rfl⟩; exact ⟨r2, ⟨h9, hne⟩, rfl⟩

lemma mem_boxTargets {p q : Cell} :
    q ∈ boxTargets p ↔ ∃ d, d < 9 ∧ q ≠ p ∧ q = box_cell (row_col2box p.1 p.2) d := by
  simp only [boxTargets, List.mem_filter, List.mem_map, List.mem_range, bne_iff_ne, box_cell]
  constructor
  · rintro ⟨⟨d, h9, rfl⟩, hne⟩; exact ⟨d, h9, hne, rfl⟩
  · rintro ⟨d, h9, hne, rfl⟩; exact ⟨⟨d, h9, rfl⟩, hne⟩

lemma grid_scanning_spec (order : List Cell) (og : OptionsGrid) (pend : List Cell) :
    ((grid_scanning order og pend).1 = true →
      ∃ p d, p ∈ order ∧ 1 < (og p).card ∧ d ∈ og p ∧
        ((∀ c2 < 9, c2 ≠ p.2 → d ∉ og (p.1, c2)) ∨
         (∀ r2 < 9, r2 ≠ p.1 → d ∉ og (r2, p.2)) ∨
         (∀ d2 < 9, box_cell (row_col2box p.1 p.2) d2 ≠ p →
            d ∉ og (box_cell (row_col2box p.1 p.2) d2))) ∧
        (grid_scanning order og pend).2.1 p = {d} ∧
        (∀ q, q ≠ p → (grid_scanning order og pend).2.1 q = og q) ∧
        (grid_scanning order og pend).2.2 = addPend p pend) ∧
    ((grid_scanning order og pend).1 = false →
      (grid_scanning order og pend).2.1 = og ∧ (grid_scanning order og pend).2.2 = pend) := by
  induction order with
  | nil =>
    refine ⟨fun h => ?_, fun _ => ⟨rfl, rfl⟩⟩
    simp [grid_scanning] at h
  | cons p rest ih =>
    by_cases h1 : 1 < (og p).card
    · by_cases hrow : (og p \ unionList ((rowTargets p).map og)).card = 1
      · have hstep : grid_scanning (p :: rest) og pend =
            (true, Function.update og p (og p \ unionList ((rowTargets p).map og)),
              addPend p pend) := by
          simp [grid_scanning, h1, hrow]
        rw [hstep]
        obtain ⟨d, hd⟩ := Finset.card_eq_one.mp hrow
        have hdm : d ∈ og p \ unionList ((rowTargets p).map og) := by
          rw [hd]; exact Finset.mem_singleton_self d
        rw [Finset.mem_sdiff] at hdm
        refine ⟨fun _ => ⟨p, d, List.mem_cons_self p rest, h1, hdm.1, ?_, by show Function.update og p _ p = {d}; rw [Function.update_same]; exact hd,
          fun q hq => Function.update_noteq hq _ _, rfl⟩, fun hfalse => by cases hfalse⟩
        refine Or.inl fun c2 h9 hne => ?_
        exact not_mem_unionList_map.mp hdm.2 (p.1, c2) (mem_rowTargets.mpr ⟨c2, h9, hne, rfl⟩)
      · by_cases hcol : (og p \ unionList ((colTargets p).map og)).card = 1
        · have hstep : grid_scanning (p :: rest) og pend =
              (true, Function.update og p (og p \ unionList ((colTargets p).map og)),
                addPend p pend) := by
            simp [grid_scanning, h1, hrow, hcol]
          rw [hstep]
          obtain ⟨d, hd⟩ := Finset.card_eq_one.mp hcol
          have hdm : d ∈ og p \ unionList ((colTargets p).map og) := by
            rw [hd]; exact Finset.mem_singleton_self d
          rw [Finset.mem_sdiff] at hdm
          refine ⟨fun _ => ⟨p, d, List.mem_cons_self p rest, h1, hdm.1, ?_, by show Function.update og p _ p = {d}; rw [Function.update_same]; exact hd,
            fun q hq => Function.update_noteq hq _ _, rfl⟩, fun hfalse => by cases hfalse⟩
          refine Or.inr (Or.inl fun r2 h9 hne => ?_)
          exact not_mem_unionList_map.mp hdm.2 (r2, p.2) (mem_colTargets.mpr ⟨r2, h9, hne, rfl⟩)
        · by_cases hbox : (og p \ unionList ((boxTargets p).map og)).card = 1
          · have hstep : grid_scanning (p :: rest) og pend =
                (true, Function.update og p (og p \ unionList ((boxTargets p).map og)),
                  addPend p pend) := by
              simp [grid_scanning, h1, hrow, hcol, hbox]
            rw [hstep]
            obtain ⟨d, hd⟩ := Finset.card_eq_one.mp hbox
            have hdm : d ∈ og p \ unionList ((boxTargets p).map og) := by
              rw [hd]; exact Finset.mem_singleton_self d
            rw [Finset.mem_sdiff] at hdm
            refine ⟨fun _ => ⟨p, d, List.mem_cons_self p rest, h1, hdm.1, ?_, by show Function.update og p _ p = {d}; rw [Function.update_same]; exact hd,
              fun q hq => Function.update_noteq hq _ _, rfl⟩, fun hfalse => by cases hfalse⟩
            refine Or.inr (Or.inr fun d2 h9 hne => ?_)
            exact not_mem_unionList_map.mp hdm.2 _ (mem_boxTargets.mpr ⟨d2, h9, hne, rfl⟩)
          · have hstep : grid_scanning (p :: rest) og pend = grid_scanning rest og pend := by
              simp [grid_scanning, h1, hrow, hcol, hbox]
            rw [hstep]
            refine ⟨fun ht => ?_, ih.2⟩
            obtain ⟨q, d, hm, hrest⟩ := ih.1 ht
            exact ⟨q, d, List.mem_cons_of_mem p hm, hrest⟩
    · have hstep : grid_scanning (p :: rest) og pend = grid_scanning rest og pend := by
        simp [grid_scanning, h1]
      rw [hstep]
      refine ⟨fun ht => ?_, ih.2⟩
      obtain ⟨q, d, hm, hrest⟩ := ih.1 ht
      exact ⟨q, d, List.mem_cons_of_mem p hm, hrest⟩

/-- C8: one call of `grid_scanning` either reports `true`, having replaced
exactly one square's option set — a square with more than one option — by
a singleton subset of it whose digit occurs in no other square's option
set in that square's row, or column, or box, and having added exactly that
square to the pending set; or it reports `false` (the Python `None`) and
changes neither the options grid nor the pending set. -/
theorem claim_C8_grid_scanning (order : List Cell) (og : OptionsGrid) (pend : List Cell) :
    ((grid_scanning order og pend).1 = true →
      ∃ p d, 1 < (og p).card ∧ d ∈ og p ∧
        ((∀ c2 < 9, c2 ≠ p.2 → d ∉ og (p.1, c2)) ∨
         (∀ r2 < 9, r2 ≠ p.1 → d ∉ og (r2, p.2)) ∨
         (∀ d2 < 9, box_cell (row_col2box p.1 p.2) d2 ≠ p →
            d ∉ og (box_cell (row_col2box p.1 p.2) d2))) ∧
        (grid_scanning order og pend).2.1 p = {d} ∧
        (∀ q, q ≠ p → (grid_scanning order og pend).2.1 q = og q) ∧
        (grid_scanning order og pend).2.2 = addPend p pend) ∧
    ((grid_scanning order og pend).1 = false →
      (grid_scanning order og pend).2.1 = og ∧ (grid_scanning order og pend).2.2 = pend) := by
  refine ⟨fun ht => ?_, (grid_scanning_spec order og pend).2⟩
  obtain ⟨p, d, _, hrest⟩ := (grid_scanning_spec order og pend).1 ht
  exact ⟨p, d, hrest⟩

/-- Witness for C8: scanning a grid whose squares all hold single options
finds nothing and changes nothing. -/
theorem claim_C8_grid_scanning_witness :
    (grid_scanning rangeCells (initialise_grid Sgrid).2 []).1 = false ∧
    ((grid_scanning rangeCells (initialise_grid Sgrid).2 []).2.1 =
        (initialise_grid Sgrid).2 ∧
      (grid_scanning rangeCells (initialise_grid Sgrid).2 []).2.2 = []) :=
  ⟨rfl, (claim_C8_grid_scanning rangeCells (initialise_grid Sgrid).2 []).2 rfl⟩

lemma eliminate_no_silent_empty {src : Cell} {ts : List Cell} {og : OptionsGrid}
    {out : OutputGrid} {pend : List Cell} {og2 : OptionsGrid} {pend2 : List Cell}
    (h : eliminate src ts og out pend = some (og2, pend2)) :
    ∀ q, og2 q = og q ∨ og2 q ≠ ∅ := by
  induction ts generalizing og pend with
  | nil =>
    rw [eliminate] at h
    injection h with h
    injection h with h1 h2
    intro q; exact Or.inl (h1 ▸ rfl)
  | cons t ts ih =>
    rw [eliminate] at h
    by_cases h0 : (og t \ og src).card = 0
    · rw [if_pos h0] at h; cases h
    · rw [if_neg h0] at h
      have hne : og t \ og src ≠ ∅ := fun he => h0 (he ▸ Finset.card_empty)
      have step : ∀ q, Function.update og t (og t \ og src) q = og q ∨
          Function.update og t (og t \ og src) q ≠ ∅ := by
        intro q
        by_cases hq : q = t
        · subst hq; rw [Function.update_same]; exact Or.inr hne
        · rw [Function.update_noteq hq]; exact Or.inl rfl
      by_cases h1 : (og t \ og src).card = 1 ∧ out t = 0
      · rw [if_pos h1] at h
        intro q
        rcases ih h q with h2 | h2
        · rcases step q with h3 | h3
          · exact Or.inl (h2.trans h3)
          · exact Or.inr (h2 ▸ h3)
        · exact Or.inr h2
      · rw [if_neg h1] at h
        intro q
        rcases ih h q with h2 | h2
        · rcases step q with h3 | h3
          · exact Or.inl (h2.trans h3)
          · exact Or.inr (h2 ▸ h3)
        · exact Or.inr h2

lemma sop_no_silent_empty {fuel : ℕ} {og : OptionsGrid} {out : OutputGrid}
    {pend : List Cell} {st2 : SolverState}
    (h : single_option_processing fuel ⟨og, out, pend⟩ = .ok st2) :
    ∀ q, st2.og q = og q ∨ st2.og q ≠ ∅ := by
  induction fuel generalizing og out pend with
  | zero => cases h
  | succ fuel ih =>
    match pend with
    | [] =>
      rw [single_option_processing] at h
      injection h with h
      subst h
      exact fun q => Or.inl rfl
    | p :: rest =>
      rw [single_option_processing] at h
      split at h
      · simp only [] at h
        split at h
        · cases h
        · rename_i v hsort og2pend helim
          intro q
          rcases ih h q with h2 | h2
          · rcases eliminate_no_silent_empty helim q with h3 | h3
            · exact Or.inl (h2.trans h3)
            · exact Or.inr (h2 ▸ h3)
          · exact Or.inr h2
      · cases h

/-- Counterexample to C4 as stated: on the validator-passing grid
`G3grid`, `single_option_processing` performs a real propagation step
(it pops the pending square (5,5), which the starting grid left unknown,
and writes 4 there) and returns success — the branch is not declared
unsolvable — yet square (0,0)'s candidate set is empty afterwards: the
empty set produced by `initialise_grid` is silently retained. -/
theorem claim_C4_counterexample :
    is_valid_starting_grid G3grid = true ∧
    (initState G3grid).pend = [(5, 5)] ∧
    G3grid (5, 5) = 0 ∧
    sopTag (single_option_processing 82 (initState G3grid)) = 0 ∧
    sopOut (single_option_processing 82 (initState G3grid)) (5, 5) = 4 ∧
    sopOg (single_option_processing 82 (initState G3grid)) (0, 0) = ∅ :=
  ⟨by decide, by rfl, by rfl, by rfl, by rfl, by rfl⟩

/-- C4 (amended): whenever `single_option_processing` shrinks a square's
option set to size 0 it returns `False` at once, so on any call that
returns success every square's option set is either untouched or
non-empty.  (Squares whose option set was already empty when the call
started — `initialise_grid` can produce such squares without failing —
are retained untouched; that is what refutes C4 as stated.) -/
theorem claim_C4_no_silent_empty (fuel : ℕ) (st st2 : SolverState)
    (h : single_option_processing fuel st = .ok st2) :
    ∀ q, st2.og q = st.og q ∨ st2.og q ≠ ∅ :=
  sop_no_silent_empty h

/-- Witness for the amended C4 at a concrete input. -/
theorem claim_C4_no_silent_empty_witness :
    single_option_processing 82 (initState Sgrid) =
      SopResult.ok ⟨(initState Sgrid).og, (initState Sgrid).out, []⟩ ∧
    ∀ q, (⟨(initState Sgrid).og, (initState Sgrid).out, []⟩ : SolverState).og q =
        (initState Sgrid).og q ∨
      (⟨(initState Sgrid).og, (initState Sgrid).out, []⟩ : SolverState).og q ≠ ∅ :=
  ⟨rfl, claim_C4_no_silent_empty 82 (initState Sgrid) _ rfl⟩

lemma mem_addPend {p q : Cell} {l : List Cell} :
    q ∈ addPend p l ↔ q = p ∨ q ∈ l := by
  unfold addPend
  by_cases h : p ∈ l
  · rw [if_pos h]
    exact ⟨Or.inr, fun hq => hq.elim (fun he => he ▸ h) id⟩
  · rw [if_neg h, List.mem_cons]

lemma addPend_nodup {p : Cell} {l : List Cell} (h : l.Nodup) :
    (addPend p l).Nodup := by
  unfold addPend
  by_cases hp : p ∈ l
  · rwa [if_pos hp]
  · rw [if_neg hp]
    exact List.nodup_cons.mpr ⟨hp, h⟩

lemma mem_cellsFinset {p : Cell} : p ∈ cellsFinset ↔ inRange p := by
  cases p with
  | mk a b => simp [cellsFinset, Finset.mem_product, Finset.mem_range, inRange]

lemma mem_digits {v : ℕ} : v ∈ digits ↔ 1 ≤ v ∧ v ≤ 9 := by
  simp [digits, Finset.mem_Icc]

lemma digits_ne_zero {v : ℕ} (h : v ∈ digits) : v ≠ 0 := by
  rw [mem_digits] at h; omega

lemma sameGroup_symm {p q : Cell} (h : SameGroup p q) : SameGroup q p := by
  rcases h with h | h | h
  · exact Or.inl h.symm
  · exact Or.inr (Or.inl h.symm)
  · exact Or.inr (Or.inr h.symm)

lemma row_col2box_lt {p : Cell} (hp : inRange p) : row_col2box p.1 p.2 < 9 := by
  obtain ⟨h1, h2⟩ := hp
  unfold row_col2box
  omega

lemma box_cell_inRange {b d : ℕ} (hb : b < 9) (hd : d < 9) :
    inRange (box_cell b d) := by
  unfold box_cell box2start_row_col inRange
  constructor <;> simp only <;> omega

lemma row_col2box_box_cell {b d : ℕ} (hb : b < 9) (hd : d < 9) :
    row_col2box (box_cell b d).1 (box_cell b d).2 = b := by
  unfold box_cell box2start_row_col row_col2box
  simp only
  omega

lemma box_cell_eq_self {q : Cell} (hq : inRange q) :
    box_cell (row_col2box q.1 q.2) (3 * (q.1 % 3) + q.2 % 3) = q := by
  obtain ⟨h1, h2⟩ := hq
  unfold box_cell box2start_row_col row_col2box
  have e1 : 3 * (3 * (q.1 / 3) + q.2 / 3) / 3 = 3 * (q.1 / 3) + q.2 / 3 := by omega
  cases q with
  | mk a b =>
    simp only at h1 h2 ⊢
    have : (3 * (a / 3) + b / 3) / 3 = a / 3 := by omega
    have : (3 * (a / 3) + b / 3) % 3 = b / 3 := by omega
    refine Prod.ext ?_ ?_ <;> simp only <;> omega

lemma elimTargets_spec {p q : Cell} (hp : inRange p) (hq : q ∈ elimTargets p) :
    inRange q ∧ q ≠ p ∧ SameGroup p q := by
  unfold elimTargets at hq
  rw [List.mem_append, List.mem_append] at hq
  rcases hq with (hq | hq) | hq
  · obtain ⟨c2, h9, hne, rfl⟩ := mem_rowTargets.mp hq
    exact ⟨⟨hp.1, h9⟩, fun he => hne (congrArg Prod.snd he), Or.inl rfl⟩
  · obtain ⟨r2, h9, hne, rfl⟩ := mem_colTargets.mp hq
    exact ⟨⟨h9, hp.2⟩, fun he => hne (congrArg Prod.fst he), Or.inr (Or.inl rfl)⟩
  · obtain ⟨d, h9, hne, rfl⟩ := mem_boxTargets.mp hq
    exact ⟨box_cell_inRange (row_col2box_lt hp) h9, hne,
      Or.inr (Or.inr (row_col2box_box_cell (row_col2box_lt hp) h9).symm)⟩

lemma mem_elimTargets_of_sameGroup {p q : Cell} (hp : inRange p) (hq : inRange q)
    (hne : q ≠ p) (hg : SameGroup p q) : q ∈ elimTargets p := by
  unfold elimTargets
  rw [List.mem_append, List.mem_append]
  rcases hg with h | h | h
  · refine Or.inl (Or.inl (mem_rowTargets.mpr ⟨q.2, hq.2, fun he => hne ?_, ?_⟩))
    · exact Prod.ext_iff.mpr ⟨h.symm, he⟩
    · exact Prod.ext_iff.mpr ⟨h.symm, rfl⟩
  · refine Or.inl (Or.inr (mem_colTargets.mpr ⟨q.1, hq.1, fun he => hne ?_, ?_⟩))
    · exact Prod.ext_iff.mpr ⟨he, h.symm⟩
    · exact Prod.ext_iff.mpr ⟨rfl, h.symm⟩
  · refine Or.inr (mem_boxTargets.mpr ⟨3 * (q.1 % 3) + q.2 % 3, ?_, hne, ?_⟩)
    · have := hq.1; have := hq.2; omega
    · rw [h]; exact (box_cell_eq_self hq).symm

lemma singleton_sdiff_of_ne {a v : ℕ} (h : a ≠ v) :
    ({a} : Finset ℕ) \ {v} = {a} := by
  ext x
  simp only [Finset.mem_sdiff, Finset.mem_singleton]
  exact ⟨fun hx => hx.1, fun hx => ⟨hx, hx ▸ h⟩⟩

lemma sdiff_of_card_one {s x : Finset ℕ} (hcard : s.card = 1)
    (hne : (s \ x).card ≠ 0) : s \ x = s := by
  obtain ⟨a, ha⟩ := Finset.card_eq_one.mp hcard
  have hsub : s \ x ⊆ {a} := ha ▸ (Finset.sdiff_subset : s \ x ⊆ s)
  rcases Finset.subset_singleton_iff.mp hsub with h | h
  · rw [h] at hne
    exact absurd Finset.card_empty hne
  · rw [h, ha]

lemma zerosCount_update {out : OutputGrid} {p : Cell} {v : ℕ} (hp : inRange p)
    (h0 : out p = 0) (hv : v ≠ 0) :
    zerosCount (Function.update out p v) + 1 = zerosCount out := by
  unfold zerosCount
  have hmem : p ∈ cellsFinset.filter fun q => out q = 0 := by
    rw [Finset.mem_filter]
    exact ⟨mem_cellsFinset.mpr hp, h0⟩
  have hfe : (cellsFinset.filter fun q => Function.update out p v q = 0) =
      (cellsFinset.filter fun q => out q = 0).erase p := by
    ext q
    rw [Finset.mem_erase, Finset.mem_filter, Finset.mem_filter]
    by_cases hq : q = p
    · subst hq
      rw [Function.update_same]
      exact ⟨fun h => absurd h.2 hv, fun h => absurd rfl h.1⟩
    · rw [Function.update_noteq hq]
      exact ⟨fun h => ⟨hq, h⟩, fun h => h.2⟩
  rw [hfe, Finset.card_erase_of_mem hmem]
  have : 0 < (cellsFinset.filter fun q => out q = 0).card :=
    Finset.card_pos.mpr ⟨p, hmem⟩
  omega

lemma zerosCount_le_81 (out : OutputGrid) : zerosCount out ≤ 81 := by
  unfold zerosCount
  calc (cellsFinset.filter fun p => out p = 0).card
      ≤ cellsFinset.card := Finset.card_filter_le _ _
    _ = 81 := by decide

lemma zerosCount_pos_of_zero {out : OutputGrid} {p : Cell} (hp : inRange p)
    (h0 : out p = 0) : 0 < zerosCount out := by
  unfold zerosCount
  exact Finset.card_pos.mpr ⟨p, Finset.mem_filter.mpr ⟨mem_cellsFinset.mpr hp, h0⟩⟩

lemma eliminate_spec {p : Cell} {v : ℕ} {og2 : OptionsGrid} {pend2 : List Cell} :
    ∀ {ts : List Cell} {og : OptionsGrid} {out2 : OutputGrid} {pend : List Cell},
    eliminate p ts og out2 pend = some (og2, pend2) →
    (∀ t ∈ ts, inRange t ∧ t ≠ p) →
    og p = {v} →
    (∀ q ∈ pend, inRange q) → pend.Nodup →
    (∀ q ∈ pend, (og q).card = 1 ∧ out2 q = 0) →
    (∀ q, inRange q → out2 q ≠ 0 → og q = {out2 q}) →
    (∀ q, inRange q → og q ⊆ digits) →
    (∀ q ∈ pend2, inRange q) ∧ pend2.Nodup ∧
    (∀ q ∈ pend2, (og2 q).card = 1 ∧ out2 q = 0) ∧
    (∀ q, inRange q → out2 q ≠ 0 → og2 q = {out2 q}) ∧
    (∀ q, inRange q → og2 q ⊆ digits) ∧
    (∀ q, q ∉ ts → og2 q = og q) ∧
    (∀ t ∈ ts, v ∉ og2 t) ∧
    (∀ q, og2 q ⊆ og q) := by
  intro ts
  induction ts with
  | nil =>
    intro og out2 pend heq hts hsrc hA1 hA2 hA3 hA4 hA5
    rw [eliminate] at heq
    injection heq with heq
    injection heq with h1 h2
    subst h1; subst h2
    exact ⟨hA1, hA2, hA3, hA4, hA5, fun q _ => rfl, fun t ht => absurd ht (List.not_mem_nil t),
      fun q => Finset.Subset.refl _⟩
  | cons t ts ih =>
    intro og out2 pend heq hts hsrc hA1 hA2 hA3 hA4 hA5
    obtain ⟨htr, htp⟩ := hts t (List.mem_cons_self t ts)
    have hts' : ∀ u ∈ ts, inRange u ∧ u ≠ p := fun u hu => hts u (List.mem_cons_of_mem t hu)
    rw [eliminate] at heq
    by_cases h0 : (og t \ og p).card = 0
    · rw [if_pos h0] at heq; cases heq
    · rw [if_neg h0] at heq
      have hogp' : Function.update og t (og t \ og p) p = {v} := by
        rw [Function.update_noteq (Ne.symm htp)]; exact hsrc
      have hsub' : ∀ q, Function.update og t (og t \ og p) q ⊆ og q := by
        intro q
        by_cases hq : q = t
        · subst hq; rw [Function.update_same]; exact Finset.sdiff_subset
        · rw [Function.update_noteq hq]
      have hA4' : ∀ q, inRange q → out2 q ≠ 0 →
          Function.update og t (og t \ og p) q = {out2 q} := by
        intro q hqr hq0
        by_cases hq : q = t
        · subst hq
          rw [Function.update_same]
          have he := hA4 q hqr hq0
          rw [he] at h0 ⊢
          have hvv : out2 q ≠ v := by
            intro hvv
            rw [hvv, hsrc, Finset.sdiff_self] at h0
            exact h0 Finset.card_empty
          rw [hsrc, singleton_sdiff_of_ne hvv]
        · rw [Function.update_noteq hq]
          exact hA4 q hqr hq0
      have hA5' : ∀ q, inRange q → Function.update og t (og t \ og p) q ⊆ digits :=
        fun q hqr => (hsub' q).trans (hA5 q hqr)
      have hA3t : ∀ q ∈ pend, (Function.update og t (og t \ og p) q).card = 1 ∧
          out2 q = 0 := by
        intro q hq
        obtain ⟨hc1, ho0⟩ := hA3 q hq
        by_cases hqt : q = t
        · subst hqt
          rw [Function.update_same, sdiff_of_card_one hc1 h0]
          exact ⟨hc1, ho0⟩
        · rw [Function.update_noteq hqt]
          exact ⟨hc1, ho0⟩
      by_cases h1 : (og t \ og p).card = 1 ∧ out2 t = 0
      · rw [if_pos h1] at heq
        have hA1' : ∀ q ∈ addPend t pend, inRange q := by
          intro q hq
          rcases mem_addPend.mp hq with rfl | hq
          · exact htr
          · exact hA1 q hq
        have hA3' : ∀ q ∈ addPend t pend,
            (Function.update og t (og t \ og p) q).card = 1 ∧ out2 q = 0 := by
          intro q hq
          rcases mem_addPend.mp hq with rfl | hq
          · rw [Function.update_same]
            exact h1
          · exact hA3t q hq
        obtain ⟨B1, B2, B3, B4, B5, B6, B7, B8⟩ :=
          ih heq hts' hogp' hA1' (addPend_nodup hA2) hA3' hA4' hA5'
        refine ⟨B1, B2, B3, B4, B5, ?_, ?_, fun q => (B8 q).trans (hsub' q)⟩
        · intro q hq
          rw [List.mem_cons, not_or] at hq
          rw [B6 q hq.2, Function.update_noteq hq.1]
        · intro u hu
          rcases List.mem_cons.mp hu with rfl | hu
          · by_cases hut : u ∈ ts
            · exact B7 u hut
            · rw [B6 u hut, Function.update_same, hsrc]
              simp [Finset.mem_sdiff]
          · exact B7 u hu
      · rw [if_neg h1] at heq
        have hA3' : ∀ q ∈ pend, (Function.update og t (og t \ og p) q).card = 1 ∧
            out2 q = 0 := hA3t
        obtain ⟨B1, B2, B3, B4, B5, B6, B7, B8⟩ :=
          ih heq hts' hogp' hA1 hA2 hA3' hA4' hA5'
        refine ⟨B1, B2, B3, B4, B5, ?_, ?_, fun q => (B8 q).trans (hsub' q)⟩
        · intro q hq
          rw [List.mem_cons, not_or] at hq
          rw [B6 q hq.2, Function.update_noteq hq.1]
        · intro u hu
          rcases List.mem_cons.mp hu with rfl | hu
          · by_cases hut : u ∈ ts
            · exact B7 u hut
            · rw [B6 u hut, Function.update_same, hsrc]
              simp [Finset.mem_sdiff]
          · exact B7 u hu

lemma sop_spec (g : StartingGrid) :
    ∀ (fuel : ℕ) (og : OptionsGrid) (out : OutputGrid) (pend : List Cell),
    SolverInv ⟨og, out, pend⟩ →
    (single_option_processing fuel ⟨og, out, pend⟩ ≠ .popError) ∧
    (zerosCount out < fuel → single_option_processing fuel ⟨og, out, pend⟩ ≠ .fuelOut) ∧
    (∀ st2, single_option_processing fuel ⟨og, out, pend⟩ = .ok st2 →
      SolverInv st2 ∧ st2.pend = [] ∧
      (∀ q, inRange q → out q ≠ 0 → st2.out q = out q) ∧
      zerosCount st2.out ≤ zerosCount out ∧
      (pend ≠ [] → zerosCount st2.out < zerosCount out) ∧
      (SInv g out → SInv g st2.out)) := by
  intro fuel
  induction fuel with
  | zero =>
    intro og out pend hI
    have h0 : single_option_processing 0 ⟨og, out, pend⟩ = SopResult.fuelOut := rfl
    simp only [h0]
    exact ⟨(fun h => nomatch h), (fun hc => absurd hc (Nat.not_lt_zero _)),
      (fun st2 h => nomatch h)⟩
  | succ fuel ih =>
    intro og out pend hI
    match pend with
    | [] =>
      have hred : single_option_processing (fuel + 1) ⟨og, out, []⟩ =
          .ok ⟨og, out, []⟩ := rfl
      rw [hred]
      refine ⟨(fun h => nomatch h), (fun hc h => nomatch h), (fun st2 h => ?_)⟩
      injection h with h
      subst h
      exact ⟨hI, rfl, fun q _ _ => rfl, le_refl _, fun h => absurd rfl h,
        fun hS => hS⟩
    | p :: rest =>
      have hp9 : inRange p := hI.pendRange p (List.mem_cons_self p rest)
      have hc1 : (og p).card = 1 := (hI.pendCard p (List.mem_cons_self p rest)).1
      have ho0 : out p = 0 := (hI.pendCard p (List.mem_cons_self p rest)).2
      obtain ⟨v, hv⟩ := Finset.card_eq_one.mp hc1
      have hvmem : v ∈ og p := by rw [hv]; exact Finset.mem_singleton_self v
      have hvd : v ∈ digits := hI.subDigits p hp9 hvmem
      have hv0 : v ≠ 0 := digits_ne_zero hvd
      have hmin : (og p).min = some v := by rw [hv]; exact Finset.min_singleton
      have hpnr : p ∉ rest := (List.nodup_cons.mp hI.pendNodup).1
      have hrestnd : rest.Nodup := (List.nodup_cons.mp hI.pendNodup).2
      have hred : single_option_processing (fuel + 1) ⟨og, out, p :: rest⟩ =
          match eliminate p (elimTargets p) og (Function.update out p v) rest with
          | none => SopResult.failed
          | some (og2, pend2) =>
            single_option_processing fuel ⟨og2, Function.update out p v, pend2⟩ := by
        simp only [single_option_processing, hc1, hmin]
      rcases helim : eliminate p (elimTargets p) og (Function.update out p v) rest with
        _ | ⟨og2, pend2⟩
      · rw [helim] at hred
        rw [hred]
        exact ⟨(fun h => nomatch h), (fun hc h => nomatch h), (fun st2 h => nomatch h)⟩
      · rw [helim] at hred
        have hts : ∀ t ∈ elimTargets p, inRange t ∧ t ≠ p := by
          intro t ht
          obtain ⟨h1, h2, _⟩ := elimTargets_spec hp9 ht
          exact ⟨h1, h2⟩
        have hA3 : ∀ q ∈ rest, (og q).card = 1 ∧ Function.update out p v q = 0 := by
          intro q hq
          obtain ⟨h1, h2⟩ := hI.pendCard q (List.mem_cons_of_mem p hq)
          refine ⟨h1, ?_⟩
          rw [Function.update_noteq (fun he => hpnr (by rw [← he]; exact hq))]
          exact h2
        have hA4 : ∀ q, inRange q → Function.update out p v q ≠ 0 →
            og q = {Function.update out p v q} := by
          intro q hqr hq0
          by_cases hqp : q = p
          · subst hqp
            rw [Function.update_same] at hq0 ⊢
            exact hv
          · rw [Function.update_noteq hqp] at hq0 ⊢
            exact hI.confirmed q hqr hq0
        obtain ⟨B1, B2, B3, B4, B5, B6, B7, B8⟩ :=
          eliminate_spec helim hts hv
            (fun q hq => hI.pendRange q (List.mem_cons_of_mem p hq)) hrestnd
            hA3 hA4 hI.subDigits
        have hI2 : SolverInv ⟨og2, Function.update out p v, pend2⟩ :=
          ⟨B1, B2, B3, B4, B5⟩
        have hzc : zerosCount (Function.update out p v) + 1 = zerosCount out :=
          zerosCount_update hp9 ho0 hv0
        obtain ⟨ih1, ih2, ih3⟩ := ih og2 (Function.update out p v) pend2 hI2
        have hSpres : SInv g out → SInv g (Function.update out p v) := by
          intro hS
          refine ⟨?_, ?_⟩
          · intro a b har hbr hab hgr ha0 hb0
            by_cases hap : a = p
            · have hbp : b ≠ p := fun he => hab (hap.trans he.symm)
              have hb4 := B4 b hbr hb0
              rw [Function.update_noteq hbp] at hb4
              have hbt : b ∈ elimTargets p :=
                mem_elimTargets_of_sameGroup hp9 hbr hbp (hap ▸ hgr)
              rw [hap, Function.update_same, Function.update_noteq hbp]
              intro he
              exact B7 b hbt (by rw [hb4, ← he]; exact Finset.mem_singleton_self v)
            · by_cases hbp : b = p
              · have ha4 := B4 a har ha0
                rw [Function.update_noteq hap] at ha4
                have hat : a ∈ elimTargets p :=
                  mem_elimTargets_of_sameGroup hp9 har hap (sameGroup_symm (hbp ▸ hgr))
                rw [hbp, Function.update_same, Function.update_noteq hap]
                intro he
                exact B7 a hat (by rw [ha4, he]; exact Finset.mem_singleton_self v)
              · rw [Function.update_noteq hap] at ha0 ⊢
                rw [Function.update_noteq hbp] at hb0 ⊢
                exact hS.distinct a b har hbr hab hgr ha0 hb0
          · intro q hqr hq0
            by_cases hqp : q = p
            · exact absurd (show g q = 0 by
                rw [← hS.agrees q hqr hq0, hqp]; exact ho0) hq0
            · rw [Function.update_noteq hqp]
              exact hS.agrees q hqr hq0
        refine ⟨?_, ?_, ?_⟩
        · rw [hred]; exact ih1
        · intro hzlt
          rw [hred]
          exact ih2 (by omega)
        · intro st2 hok
          rw [hred] at hok
          obtain ⟨j1, j2, j3, j4, j5, j6⟩ := ih3 st2 hok
          refine ⟨j1, j2, ?_, by omega, fun _ => by omega, fun hS => j6 (hSpres hS)⟩
          intro q hqr hq0
          have hqp : q ≠ p := fun he => hq0 (he ▸ ho0)
          have := j3 q hqr (by rw [Function.update_noteq hqp]; exact hq0)
          rw [Function.update_noteq hqp] at this
          exact this

lemma addPend_ne_nil {p : Cell} {l : List Cell} : addPend p l ≠ [] := by
  unfold addPend
  by_cases h : p ∈ l
  · rw [if_pos h]
    exact List.ne_nil_of_mem h
  · rw [if_neg h]
    exact List.cons_ne_nil p l

lemma mem_rangeCells {p : Cell} : p ∈ rangeCells ↔ inRange p := by
  cases p with
  | mk a b =>
    simp [rangeCells, List.mem_flatMap, List.mem_map, List.mem_range, inRange]

lemma grid_scanning_inv {order : List Cell} {og : OptionsGrid} {out : OutputGrid}
    {pend : List Cell} (hord : ∀ q ∈ order, inRange q)
    (hI : SolverInv ⟨og, out, pend⟩) :
    SolverInv ⟨(grid_scanning order og pend).2.1, out, (grid_scanning order og pend).2.2⟩ ∧
    ((grid_scanning order og pend).1 = true → (grid_scanning order og pend).2.2 ≠ []) ∧
    ((grid_scanning order og pend).1 = false →
      (grid_scanning order og pend).2.1 = og ∧ (grid_scanning order og pend).2.2 = pend) := by
  have hpr : ∀ q ∈ pend, inRange q := hI.pendRange
  have hpn : pend.Nodup := hI.pendNodup
  have hpc : ∀ q ∈ pend, (og q).card = 1 ∧ out q = 0 := hI.pendCard
  have hconf : ∀ q, inRange q → out q ≠ 0 → og q = {out q} := hI.confirmed
  have hsubd : ∀ q, inRange q → og q ⊆ digits := hI.subDigits
  rcases hfound : (grid_scanning order og pend).1 with _ | _
  · obtain ⟨hog, hpend⟩ := (grid_scanning_spec order og pend).2 hfound
    rw [hog, hpend]
    exact ⟨hI, (fun ht => nomatch ht), (fun _ => ⟨rfl, rfl⟩)⟩
  · obtain ⟨p, d, hmem, hcard, hd, _, hogp, hframe, hpend⟩ :=
      (grid_scanning_spec order og pend).1 hfound
    have hp9 : inRange p := hord p hmem
    have hout0 : out p = 0 := by
      by_contra h0
      have hc := hconf p hp9 h0
      rw [hc] at hcard
      simp at hcard
    rw [hpend]
    have f1 : ∀ q ∈ addPend p pend, inRange q := by
      intro q hq
      rcases mem_addPend.mp hq with rfl | hq
      · exact hp9
      · exact hpr q hq
    have f3 : ∀ q ∈ addPend p pend,
        ((grid_scanning order og pend).2.1 q).card = 1 ∧ out q = 0 := by
      intro q hq
      by_cases hqp : q = p
      · rw [hqp, hogp]
        exact ⟨Finset.card_singleton d, hout0⟩
      · rcases mem_addPend.mp hq with rfl | hq
        · exact absurd rfl hqp
        · rw [hframe q hqp]
          exact hpc q hq
    have f4 : ∀ q, inRange q → out q ≠ 0 →
        (grid_scanning order og pend).2.1 q = {out q} := by
      intro q hqr hq0
      by_cases hqp : q = p
      · exact absurd (hqp ▸ hout0) hq0
      · rw [hframe q hqp]
        exact hconf q hqr hq0
    have f5 : ∀ q, inRange q → (grid_scanning order og pend).2.1 q ⊆ digits := by
      intro q hqr
      by_cases hqp : q = p
      · rw [hqp, hogp]
        intro x hx
        rw [Finset.mem_singleton] at hx
        subst hx
        exact hsubd p hp9 hd
      · rw [hframe q hqp]
        exact hsubd q hqr
    exact ⟨⟨f1, addPend_nodup hpn, f3, f4, f5⟩, (fun _ => addPend_ne_nil),
      (fun hf => nomatch hf)⟩

lemma min_fold_spec {og : OptionsGrid} :
    ∀ (l : List Cell) (acc : Option (Cell × ℕ)),
    (∀ q ∈ l, inRange q) →
    (∀ q m, acc = some (q, m) → inRange q ∧ 1 < (og q).card) →
    ∀ q m, (l.foldl (fun acc p =>
      match acc with
      | none => if 1 < (og p).card then some (p, (og p).card) else none
      | some (q, m) =>
        if 1 < (og p).card ∧ (og p).card < m then some (p, (og p).card)
        else some (q, m)) acc) = some (q, m) → inRange q ∧ 1 < (og q).card := by
  intro l
  induction l with
  | nil =>
    intro acc _ hacc q m h
    exact hacc q m h
  | cons x l ih =>
    intro acc hl hacc q m h
    rw [List.foldl_cons] at h
    refine ih _ (fun u hu => hl u (List.mem_cons_of_mem x hu)) ?_ q m h
    intro u mu hstep
    match acc with
    | none =>
      simp only at hstep
      by_cases hx : 1 < (og x).card
      · rw [if_pos hx] at hstep
        injection hstep with hstep
        injection hstep with h1 h2
        subst h1
        exact ⟨hl x (List.mem_cons_self x l), hx⟩
      · rw [if_neg hx] at hstep
        cases hstep
    | some (w, n) =>
      simp only at hstep
      by_cases hx : 1 < (og x).card ∧ (og x).card < n
      · rw [if_pos hx] at hstep
        injection hstep with hstep
        injection hstep with h1 h2
        subst h1
        exact ⟨hl x (List.mem_cons_self x l), hx.1⟩
      · rw [if_neg hx] at hstep
        injection hstep with hstep
        injection hstep with h1 h2
        rw [← h1]
        exact hacc w n rfl

lemma minimum_options_square_spec {og : OptionsGrid} {p : Cell}
    (h : minimum_options_square og = some p) : inRange p ∧ 1 < (og p).card := by
  unfold minimum_options_square at h
  obtain ⟨⟨q, m⟩, hfold, hq⟩ := Option.map_eq_some'.mp h
  have := min_fold_spec rangeCells none
    (fun u hu => mem_rangeCells.mp hu) (fun u mu hu => nomatch hu) q m hfold
  rw [← hq]
  exact this

lemma is_sudoku_complete_true {out : OutputGrid} :
    is_sudoku_complete out = true ↔ ∀ q : Cell, inRange q → out q ≠ 0 := by
  unfold is_sudoku_complete
  rw [Bool.not_eq_eq_eq_not, Bool.not_true, List.any_eq_false]
  constructor
  · intro h q hq h0
    have h1 := h q.1 (List.mem_range.mpr hq.1)
    rw [List.any_eq_true] at h1
    exact h1 ⟨q.2, List.mem_range.mpr hq.2, beq_iff_eq.mpr h0⟩
  · intro h r hr hany
    rw [List.any_eq_true] at hany
    obtain ⟨c, hc, h0⟩ := hany
    exact h (r, c) ⟨List.mem_range.mp hr, List.mem_range.mp hc⟩ (beq_iff_eq.mp h0)

lemma zeros_pos_of_incomplete {out : OutputGrid}
    (h : is_sudoku_complete out = false) : 0 < zerosCount out := by
  have hn : ¬ ∀ q : Cell, inRange q → out q ≠ 0 := by
    rw [← is_sudoku_complete_true, h]
    simp
  push_neg at hn
  obtain ⟨q, hq, h0⟩ := hn
  exact zerosCount_pos_of_zero hq h0

lemma toCells_inRange {o : RandOrder} : ∀ q ∈ toCells o, inRange q := by
  intro q hq
  unfold toCells at hq
  rw [List.mem_map] at hq
  obtain ⟨⟨a, b⟩, _, rfl⟩ := hq
  exact ⟨a.2, b.2⟩

lemma solver_loop_spec (g : StartingGrid) :
    ∀ (lf : ℕ) (os : List RandOrder) (st : SolverState) (ft : Bool),
    SolverInv st →
    (ft = true ∨ st.pend ≠ [] ∨ is_sudoku_complete st.out = false) →
    (∀ out2, (solver_loop lf os st ft).1 = .solved out2 →
      is_sudoku_complete out2 = true ∧
      (∀ q, inRange q → out2 q ∈ digits) ∧
      (SInv g st.out → SInv g out2)) ∧
    (∀ st2, (solver_loop lf os st ft).1 = .stalled st2 →
      SolverInv st2 ∧ st2.pend = [] ∧ is_sudoku_complete st2.out = false ∧
      zerosCount st2.out ≤ zerosCount st.out ∧
      (st.pend ≠ [] → zerosCount st2.out < zerosCount st.out) ∧
      (SInv g st.out → SInv g st2.out)) ∧
    ((solver_loop lf os st ft).1 ≠ .popError) ∧
    ((st.pend ≠ [] → zerosCount st.out + 2 ≤ lf) →
     (st.pend = [] → ft = true → zerosCount st.out + 3 ≤ lf) →
     1 ≤ lf →
     (solver_loop lf os st ft).1 ≠ .fuelOut) := by
  intro lf
  induction lf with
  | zero =>
    intro os st ft hI hstart
    exact ⟨(fun out2 h => nomatch h), (fun st2 h => nomatch h), (fun h => nomatch h),
      (fun h1 h2 h3 => absurd h3 (by omega))⟩
  | succ lf ih =>
    intro os st ft hI hstart
    by_cases hrun : st.pend ≠ [] ∨ ft = true
    · rcases hsop : single_option_processing 82 st with st1 | _ | _ | _
      · obtain ⟨_, _, hok⟩ := sop_spec g 82 st.og st.out st.pend hI
        obtain ⟨j1, j2, j3, j4, j5, j6⟩ := hok st1 hsop
        by_cases hcomp : is_sudoku_complete st1.out = true
        · have hred : solver_loop (lf + 1) os st ft = (.solved st1.out, os) := by
            rw [solver_loop, if_pos hrun, hsop]
            simp only [hcomp, if_true]
          rw [hred]
          refine ⟨fun out2 h => ?_, (fun st2 h => nomatch h), (fun h => nomatch h),
            (fun h1 h2 h3 h => nomatch h)⟩
          injection h with h
          subst h
          refine ⟨hcomp, fun q hq => ?_, j6⟩
          have hne := is_sudoku_complete_true.mp hcomp q hq
          have hc := j1.confirmed q hq hne
          have hs := j1.subDigits q hq
          rw [hc] at hs
          exact hs (Finset.mem_singleton_self _)
        · have hb : is_sudoku_complete st1.out = false := Bool.eq_false_iff.mpr hcomp
          have hred : solver_loop (lf + 1) os st ft =
              solver_loop lf (popOrder os).2
                ⟨(grid_scanning (toCells (popOrder os).1) st1.og st1.pend).2.1, st1.out,
                 (grid_scanning (toCells (popOrder os).1) st1.og st1.pend).2.2⟩ false := by
            rw [solver_loop, if_pos hrun, hsop]
            simp only [hb, Bool.false_eq_true, if_false]
          have hI1 : SolverInv ⟨st1.og, st1.out, st1.pend⟩ := j1
          obtain ⟨k1, k2, k3⟩ := grid_scanning_inv (toCells_inRange) hI1
          obtain ⟨i1, i2, i3, i4⟩ :=
            ih (popOrder os).2
              ⟨(grid_scanning (toCells (popOrder os).1) st1.og st1.pend).2.1, st1.out,
               (grid_scanning (toCells (popOrder os).1) st1.og st1.pend).2.2⟩ false
              k1 (Or.inr (Or.inr hb))
          rw [hred]
          refine ⟨fun out2 h => ?_, fun st2 h => ?_, i3, fun h1 h2 h3 => ?_⟩
          · obtain ⟨m1, m2, m3⟩ := i1 out2 h
            have m3' : SInv g st1.out → SInv g out2 := m3
            exact ⟨m1, m2, fun hS => m3' (j6 hS)⟩
          · obtain ⟨m1, m2, m3, m4, m5, m6⟩ := i2 st2 h
            have m4' : zerosCount st2.out ≤ zerosCount st1.out := m4
            have m6' : SInv g st1.out → SInv g st2.out := m6
            refine ⟨m1, m2, m3, by omega, fun hpne => ?_, fun hS => m6' (j6 hS)⟩
            have := j5 hpne
            omega
          · have hlow : zerosCount st.out + 2 ≤ lf + 1 := by
              by_cases hpe2 : st.pend = []
              · have hft2 : ft = true := hrun.resolve_left (not_not_intro hpe2)
                have := h2 hpe2 hft2
                omega
              · exact h1 hpe2
            rcases hfound : (grid_scanning (toCells (popOrder os).1) st1.og st1.pend).1 with
              _ | _
            · obtain ⟨hog, hpend⟩ := k3 hfound
              refine i4 (fun hpne => absurd (hpend.trans j2) hpne) (fun _ hf => nomatch hf)
                (by omega)
            · refine i4 (fun _ => ?_) (fun hpe' _ => absurd hpe' (k2 hfound)) (by omega)
              show zerosCount st1.out + 2 ≤ lf
              have hj4 : zerosCount st1.out ≤ zerosCount st.out := j4
              by_cases hpe2 : st.pend = []
              · have hft2 : ft = true := hrun.resolve_left (not_not_intro hpe2)
                have := h2 hpe2 hft2
                omega
              · have := j5 hpe2
                omega
      · have hred : (solver_loop (lf + 1) os st ft) = (LoopResult.failed, os) := by
          rw [solver_loop, if_pos hrun, hsop]
        rw [hred]
        exact ⟨(fun out2 h => nomatch h), (fun st2 h => nomatch h), (fun h => nomatch h),
          (fun h1 h2 h3 h => nomatch h)⟩
      · exact absurd hsop (sop_spec g 82 st.og st.out st.pend hI).1
      · have h82 : zerosCount st.out < 82 := by
          have := zerosCount_le_81 st.out
          omega
        exact absurd hsop ((sop_spec g 82 st.og st.out st.pend hI).2.1 h82)
    · have hpe : st.pend = [] := by
        by_contra hne
        exact hrun (Or.inl hne)
      have hft : ft = false := by
        rcases hq : ft with _ | _
        · rfl
        · exact absurd (Or.inr rfl) (hq ▸ hrun)
      have hred : solver_loop (lf + 1) os st ft = (.stalled st, os) := by
        rw [solver_loop, if_neg hrun]
      rw [hred]
      have hinc : is_sudoku_complete st.out = false := by
        rcases hstart with h | h | h
        · rw [hft] at h; cases h
        · exact absurd hpe h
        · exact h
      refine ⟨(fun out2 h => nomatch h), fun st2 h => ?_, (fun h => nomatch h),
        (fun h1 h2 h3 h => nomatch h)⟩
      injection h with h
      subst h
      exact ⟨hI, hpe, hinc, le_refl _, fun hne => absurd hpe hne, fun hS => hS⟩

lemma try_branches_result
    {F : List RandOrder → SolverState → SolveResult × List RandOrder}
    {og : OptionsGrid} {out : OutputGrid} {pend : List Cell} {p : Cell} :
    ∀ (vs : List ℕ) (os : List RandOrder),
    (try_branches F og out pend p vs os).1 = .unsolvable ∨
    ∃ v os2, v ∈ vs ∧
      try_branches F og out pend p vs os =
        F os2 ⟨Function.update og p {v}, out, addPend p pend⟩ := by
  intro vs
  induction vs with
  | nil =>
    intro os
    exact Or.inl rfl
  | cons v vs ih =>
    intro os
    have hred : try_branches F og out pend p (v :: vs) os =
        match F os ⟨Function.update og p {v}, out, addPend p pend⟩ with
        | (.unsolvable, os2) => try_branches F og out pend p vs os2
        | r => r := by
      rw [try_branches]
    rcases hF : F os ⟨Function.update og p {v}, out, addPend p pend⟩ with ⟨fr, os2⟩
    rcases fr with out2 | _ | _ | _ | _
    · exact Or.inr ⟨v, os, List.mem_cons_self v vs, by rw [hred, hF]⟩
    · rw [hF] at hred
      simp only [] at hred
      rcases ih os2 with h | ⟨w, os3, hw, he⟩
      · exact Or.inl (by rw [hred]; exact h)
      · exact Or.inr ⟨w, os3, List.mem_cons_of_mem v hw, by rw [hred]; exact he⟩
    · exact Or.inr ⟨v, os, List.mem_cons_self v vs, by rw [hred, hF]⟩
    · exact Or.inr ⟨v, os, List.mem_cons_self v vs, by rw [hred, hF]⟩
    · exact Or.inr ⟨v, os, List.mem_cons_self v vs, by rw [hred, hF]⟩

lemma branch_child_inv {st2 : SolverState} {bc : Cell} {v : ℕ}
    (hI : SolverInv st2) (hpe : st2.pend = []) (hbr : inRange bc)
    (hbc : 1 < (st2.og bc).card) (hv : v ∈ st2.og bc) :
    SolverInv ⟨Function.update st2.og bc {v}, st2.out, addPend bc st2.pend⟩ ∧
    st2.out bc = 0 ∧ addPend bc st2.pend ≠ [] := by
  have hout0 : st2.out bc = 0 := by
    by_contra h0
    have hc := hI.confirmed bc hbr h0
    rw [hc] at hbc
    simp at hbc
  have f1 : ∀ q ∈ addPend bc st2.pend, inRange q := by
    intro q hq
    rw [hpe] at hq
    rcases mem_addPend.mp hq with rfl | hq
    · exact hbr
    · cases hq
  have f2 : (addPend bc st2.pend).Nodup := by
    rw [hpe]
    exact addPend_nodup List.nodup_nil
  have f3 : ∀ q ∈ addPend bc st2.pend,
      (Function.update st2.og bc {v} q).card = 1 ∧ st2.out q = 0 := by
    intro q hq
    rw [hpe] at hq
    rcases mem_addPend.mp hq with rfl | hq
    · rw [Function.update_same]
      exact ⟨Finset.card_singleton v, hout0⟩
    · cases hq
  have f4 : ∀ q, inRange q → st2.out q ≠ 0 →
      Function.update st2.og bc {v} q = {st2.out q} := by
    intro q hqr hq0
    by_cases hqb : q = bc
    · exact absurd (hqb ▸ hout0) hq0
    · rw [Function.update_noteq hqb]
      exact hI.confirmed q hqr hq0
  have f5 : ∀ q, inRange q → Function.update st2.og bc {v} q ⊆ digits := by
    intro q hqr
    by_cases hqb : q = bc
    · rw [hqb, Function.update_same]
      intro x hx
      rw [Finset.mem_singleton] at hx
      subst hx
      exact hI.subDigits bc hbr hv
    · rw [Function.update_noteq hqb]
      exact hI.subDigits q hqr
  exact ⟨⟨f1, f2, f3, f4, f5⟩, hout0, addPend_ne_nil⟩

lemma pend_ne_nil_zeros_pos {st : SolverState} (hI : SolverInv st)
    (hne : st.pend ≠ []) : 1 ≤ zerosCount st.out := by
  match hp : st.pend with
  | [] => exact absurd hp hne
  | q :: l =>
    have hq : q ∈ st.pend := by rw [hp]; exact List.mem_cons_self q l
    exact zerosCount_pos_of_zero (hI.pendRange q hq) (hI.pendCard q hq).2

lemma sub_func_succ_eq (fuel : ℕ) (os : List RandOrder) (st : SolverState) (ft : Bool) :
    sudoku_solver_sub_func (fuel + 1) os st ft =
      match solver_loop 85 os st ft with
      | (.solved out, os2) => (.solved out, os2)
      | (.failed, os2) => (.unsolvable, os2)
      | (.popError, os2) => (.popError, os2)
      | (.fuelOut, os2) => (.fuelOut, os2)
      | (.stalled st2, os2) =>
        match minimum_options_square st2.og with
        | none => (.minError, os2)
        | some p =>
          try_branches (fun os3 st3 => sudoku_solver_sub_func fuel os3 st3 false)
            st2.og st2.out st2.pend p (Finset.sort (· ≤ ·) (st2.og p)) os2 := rfl

lemma sub_func_sound (g : StartingGrid) :
    ∀ (fuel : ℕ) (os : List RandOrder) (st : SolverState) (ft : Bool),
    SolverInv st →
    (ft = true ∨ st.pend ≠ [] ∨ is_sudoku_complete st.out = false) →
    SInv g st.out →
    ∀ out2, (sudoku_solver_sub_func fuel os st ft).1 = .solved out2 →
      is_sudoku_complete out2 = true ∧
      (∀ q, inRange q → out2 q ∈ digits) ∧
      SInv g out2 := by
  intro fuel
  induction fuel with
  | zero =>
    intro os st ft hI hstart hS out2 h
    exact nomatch h
  | succ fuel ih =>
    intro os st ft hI hstart hS out2 h
    obtain ⟨l1, l2, l3, l4⟩ := solver_loop_spec g 85 os st ft hI hstart
    rcases hloop : solver_loop 85 os st ft with ⟨lr, os2⟩
    rw [sub_func_succ_eq, hloop] at h
    rcases lr with out3 | _ | _ | st2 | _
    · simp only [] at h
      injection h with h
      subst h
      obtain ⟨m1, m2, m3⟩ := l1 out3 (by rw [hloop])
      exact ⟨m1, m2, m3 hS⟩
    · simp only [] at h
      cases h
    · simp only [] at h
      cases h
    · simp only [] at h
      obtain ⟨m1, m2, m3, m4, m5, m6⟩ := l2 st2 (by rw [hloop])
      rcases hbc : minimum_options_square st2.og with _ | bc
      · rw [hbc] at h
        simp only [] at h
        cases h
      · rw [hbc] at h
        simp only [] at h
        obtain ⟨hbr, hbcard⟩ := minimum_options_square_spec hbc
        rcases try_branches_result (Finset.sort (· ≤ ·) (st2.og bc)) os2 with hu | ⟨v, os3, hv, he⟩
        · rw [hu] at h
          cases h
        · rw [he] at h
          have hvm : v ∈ st2.og bc := (Finset.mem_sort (· ≤ ·)).mp hv
          obtain ⟨hIc, hout0, hpne⟩ := branch_child_inv m1 m2 hbr hbcard hvm
          exact ih os3 ⟨Function.update st2.og bc {v}, st2.out, addPend bc st2.pend⟩ false
            hIc (Or.inr (Or.inl hpne)) (m6 hS) out2 h
    · simp only [] at h
      cases h

lemma sub_func_safe (g : StartingGrid) :
    ∀ (fuel : ℕ) (os : List RandOrder) (st : SolverState) (ft : Bool),
    SolverInv st →
    (ft = true ∨ st.pend ≠ [] ∨ is_sudoku_complete st.out = false) →
    ((sudoku_solver_sub_func fuel os st ft).1 ≠ .popError) ∧
    (((ft = true ∧ zerosCount st.out < fuel) ∨
      (st.pend ≠ [] ∧ zerosCount st.out ≤ fuel)) →
      (sudoku_solver_sub_func fuel os st ft).1 ≠ .fuelOut) := by
  intro fuel
  induction fuel with
  | zero =>
    intro os st ft hI hstart
    refine ⟨(fun h => nomatch h), fun hfz => ?_⟩
    rcases hfz with ⟨_, hz⟩ | ⟨hne, hz⟩
    · exact absurd hz (by omega)
    · have := pend_ne_nil_zeros_pos hI hne
      exact absurd hz (by omega)
  | succ fuel ih =>
    intro os st ft hI hstart
    obtain ⟨l1, l2, l3, l4⟩ := solver_loop_spec g 85 os st ft hI hstart
    rcases hloop : solver_loop 85 os st ft with ⟨lr, os2⟩
    have hz81 := zerosCount_le_81 st.out
    rcases lr with out3 | _ | _ | st2 | _
    · rw [sub_func_succ_eq, hloop]
      exact ⟨(fun h => nomatch h), (fun hfz h => nomatch h)⟩
    · rw [sub_func_succ_eq, hloop]
      exact ⟨(fun h => nomatch h), (fun hfz h => nomatch h)⟩
    · exact absurd (by rw [hloop]) l3
    · obtain ⟨m1, m2, m3, m4, m5, m6⟩ := l2 st2 (by rw [hloop])
      rcases hbc : minimum_options_square st2.og with _ | bc
      · rw [sub_func_succ_eq, hloop]
        simp only [hbc]
        exact ⟨(fun h => nomatch h), (fun hfz h => nomatch h)⟩
      · obtain ⟨hbr, hbcard⟩ := minimum_options_square_spec hbc
        have hchild : ∀ (v : ℕ) (os3 : List RandOrder), v ∈ st2.og bc →
            ((sudoku_solver_sub_func fuel os3
              ⟨Function.update st2.og bc {v}, st2.out, addPend bc st2.pend⟩ false).1 ≠
                .popError) ∧
            ((zerosCount st2.out ≤ fuel) →
              (sudoku_solver_sub_func fuel os3
                ⟨Function.update st2.og bc {v}, st2.out, addPend bc st2.pend⟩ false).1 ≠
                  .fuelOut) := by
          intro v os3 hvm
          obtain ⟨hIc, hout0, hpne⟩ := branch_child_inv m1 m2 hbr hbcard hvm
          obtain ⟨c1, c2⟩ := ih os3
            ⟨Function.update st2.og bc {v}, st2.out, addPend bc st2.pend⟩ false
            hIc (Or.inr (Or.inl hpne))
          exact ⟨c1, fun hzf => c2 (Or.inr ⟨hpne, hzf⟩)⟩
        rw [sub_func_succ_eq, hloop]
        simp only [hbc]
        rcases try_branches_result (Finset.sort (· ≤ ·) (st2.og bc)) os2 with hu | ⟨v, os3, hv, he⟩
        · rw [hu]
          exact ⟨(fun h => nomatch h), (fun hfz h => nomatch h)⟩
        · rw [he]
          have hvm : v ∈ st2.og bc := (Finset.mem_sort (· ≤ ·)).mp hv
          refine ⟨(hchild v os3 hvm).1, fun hfz => (hchild v os3 hvm).2 ?_⟩
          rcases hfz with ⟨hft, hz⟩ | ⟨hne, hz⟩
          · have m4' : zerosCount st2.out ≤ zerosCount st.out := m4
            omega
          · have := m5 hne
            omega
    · exact absurd (by rw [hloop]) (l4 (fun _ => by omega) (fun _ _ => by omega) (by omega))

lemma foldl_addPend_mem {P : Cell → Prop} [DecidablePred P] :
    ∀ (l : List Cell) (acc : List Cell) (q : Cell),
    q ∈ l.foldl (fun pend p => if P p then addPend p pend else pend) acc ↔
      q ∈ acc ∨ (q ∈ l ∧ P q) := by
  intro l
  induction l with
  | nil =>
    intro acc q
    simp
  | cons x l ih =>
    intro acc q
    rw [List.foldl_cons]
    by_cases hx : P x
    · rw [if_pos hx, ih, mem_addPend]
      constructor
      · rintro ((he | hq) | ⟨hq, hPq⟩)
        · rw [he]
          exact Or.inr ⟨List.mem_cons_self x l, hx⟩
        · exact Or.inl hq
        · exact Or.inr ⟨List.mem_cons_of_mem x hq, hPq⟩
      · rintro (hq | ⟨hq, hPq⟩)
        · exact Or.inl (Or.inr hq)
        · rcases List.mem_cons.mp hq with he | hq
          · exact Or.inl (Or.inl he)
          · exact Or.inr ⟨hq, hPq⟩
    · rw [if_neg hx, ih]
      constructor
      · rintro (hq | ⟨hq, hPq⟩)
        · exact Or.inl hq
        · exact Or.inr ⟨List.mem_cons_of_mem x hq, hPq⟩
      · rintro (hq | ⟨hq, hPq⟩)
        · exact Or.inl hq
        · rcases List.mem_cons.mp hq with he | hq
          · rw [he] at hPq
            exact absurd hPq hx
          · exact Or.inr ⟨hq, hPq⟩

lemma foldl_addPend_nodup {P : Cell → Prop} [DecidablePred P] :
    ∀ (l : List Cell) (acc : List Cell), acc.Nodup →
    (l.foldl (fun pend p => if P p then addPend p pend else pend) acc).Nodup := by
  intro l
  induction l with
  | nil =>
    intro acc h
    exact h
  | cons x l ih =>
    intro acc h
    rw [List.foldl_cons]
    by_cases hx : P x
    · rw [if_pos hx]
      exact ih _ (addPend_nodup h)
    · rw [if_neg hx]
      exact ih _ h

lemma initialise_grid_pending_mem {g : StartingGrid} {q : Cell} :
    q ∈ initialise_grid_pending g ↔
      inRange q ∧ g q = 0 ∧ (initial_options g q).card = 1 := by
  unfold initialise_grid_pending
  rw [foldl_addPend_mem]
  simp only [List.not_mem_nil, false_or, mem_rangeCells]

lemma initial_options_subset_digits {g : StartingGrid} (hg : Digits9 g) (q : Cell)
    (hq : inRange q) : initial_options g q ⊆ digits := by
  unfold initial_options
  by_cases h0 : g q ≠ 0
  · rw [if_pos h0]
    intro x hx
    rw [Finset.mem_singleton] at hx
    subst hx
    rw [mem_digits]
    have h9 : g q ≤ 9 := by
      have := hg q.1 hq.1 q.2 hq.2
      rwa [Prod.mk.eta] at this
    omega
  · rw [if_neg h0]
    intro x hx
    rw [Finset.mem_inter] at hx
    have := hx.1
    rw [Finset.mem_inter] at this
    have h1 := this.1
    unfold init_row_options at h1
    exact (Finset.mem_sdiff.mp h1).1

lemma initState_inv {g : StartingGrid} (hg : Digits9 g) : SolverInv (initState g) := by
  have hog : (initState g).og = fun p => initial_options g p := rfl
  have hout : (initState g).out = g := rfl
  have hpend : (initState g).pend = initialise_grid_pending g := rfl
  refine ⟨?_, ?_, ?_, ?_, ?_⟩
  · intro q hq
    rw [hpend] at hq
    exact (initialise_grid_pending_mem.mp hq).1
  · rw [hpend]
    exact foldl_addPend_nodup rangeCells [] List.nodup_nil
  · intro q hq
    rw [hpend] at hq
    obtain ⟨_, h0, hc⟩ := initialise_grid_pending_mem.mp hq
    exact ⟨hc, h0⟩
  · intro q hq h0
    have h0g : g q ≠ 0 := h0
    show initial_options g q = {g q}
    unfold initial_options
    rw [if_pos h0g]
  · intro q hq
    exact initial_options_subset_digits hg q hq

lemma initState_sinv {g : StartingGrid}
    (hval : is_valid_starting_grid g = true) : SInv g (initState g).out := by
  obtain ⟨hrow, hcol, hbox⟩ := (is_valid_iff_groupNoDup g).mp hval
  refine ⟨?_, fun p _ _ => rfl⟩
  intro p q hp hq hne hgr hp0 hq0
  rcases hgr with h | h | h
  · have hne2 : p.2 ≠ q.2 := fun he => hne (Prod.ext_iff.mpr ⟨h, he⟩)
    have h1 := hrow p.1 hp.1 p.2 hp.2 q.2 hq.2 hne2 hp0
    have hq2 : q = (p.1, q.2) := Prod.ext_iff.mpr ⟨h.symm, rfl⟩
    rw [hq2]
    exact h1
  · have hne1 : p.1 ≠ q.1 := fun he => hne (Prod.ext_iff.mpr ⟨he, h⟩)
    have h1 := hcol p.2 hp.2 p.1 hp.1 q.1 hq.1 hne1 hp0
    have hq1 : q = (q.1, p.2) := Prod.ext_iff.mpr ⟨rfl, h.symm⟩
    rw [hq1]
    exact h1
  · have hb9 : row_col2box p.1 p.2 < 9 := row_col2box_lt hp
    have hpc : box_cell (row_col2box p.1 p.2) (3 * (p.1 % 3) + p.2 % 3) = p :=
      box_cell_eq_self hp
    have hqc : box_cell (row_col2box p.1 p.2) (3 * (q.1 % 3) + q.2 % 3) = q := by
      rw [h]
      exact box_cell_eq_self hq
    have hd1 : 3 * (p.1 % 3) + p.2 % 3 < 9 := by
      have := hp.1; have := hp.2; omega
    have hd2 : 3 * (q.1 % 3) + q.2 % 3 < 9 := by
      have := hq.1; have := hq.2; omega
    have hdne : 3 * (p.1 % 3) + p.2 % 3 ≠ 3 * (q.1 % 3) + q.2 % 3 := by
      intro he
      exact hne (by rw [← hpc, ← hqc, he])
    have hb1 := hbox (row_col2box p.1 p.2) hb9 (3 * (p.1 % 3) + p.2 % 3) hd1
      (3 * (q.1 % 3) + q.2 % 3) hd2 hdne
    simp only [] at hb1
    rw [hpc, hqc] at hb1
    exact hb1 hp0

lemma digits_card : digits.card = 9 := by decide

lemma group_image_digits {out2 : OutputGrid} {f : ℕ → Cell}
    (hin : ∀ i < 9, inRange (f i))
    (hinj : ∀ i < 9, ∀ j < 9, i ≠ j → f i ≠ f j)
    (hgrp : ∀ i < 9, ∀ j < 9, SameGroup (f i) (f j))
    (hdig : ∀ q : Cell, inRange q → out2 q ∈ digits)
    (hdist : ∀ p q : Cell, inRange p → inRange q → p ≠ q → SameGroup p q →
      out2 p ≠ out2 q) :
    Finset.image (fun i => out2 (f i)) (Finset.range 9) = digits := by
  apply Finset.eq_of_subset_of_card_le
  · intro x hx
    rw [Finset.mem_image] at hx
    obtain ⟨i, hi, rfl⟩ := hx
    exact hdig (f i) (hin i (Finset.mem_range.mp hi))
  · rw [digits_card]
    rw [Finset.card_image_of_injOn]
    · rw [Finset.card_range]
    · intro i hi j hj he
      rw [Finset.coe_range, Set.mem_Iio] at hi hj
      by_contra hne
      exact hdist (f i) (f j) (hin i hi) (hin j hj) (hinj i hi j hj hne)
        (hgrp i hi j hj) he

/-- C1 (amended): for every starting grid of digits 0–9 that passes
`is_valid_starting_grid`, whenever the recursive solver returns a grid as
solved, the returned grid is fully populated, every row, column and box
holds exactly the digits 1–9 with no repeats, and the grid agrees with
the starting grid on every non-zero starting square.  (The validity
hypothesis is required: see the counterexample for the claim as stated,
which quantified over every starting grid.) -/
theorem claim_C1_solver_sound (g : StartingGrid) (fuel : ℕ) (os : List RandOrder)
    (out2 : OutputGrid) (hg : Digits9 g) (hval : is_valid_starting_grid g = true)
    (h : (sudoku_solver_sub_func fuel os (initState g) true).1 = .solved out2) :
    (∀ q : Cell, inRange q → out2 q ≠ 0) ∧
    (∀ q : Cell, inRange q → g q ≠ 0 → out2 q = g q) ∧
    (∀ r < 9, Finset.image (fun c => out2 (r, c)) (Finset.range 9) = digits) ∧
    (∀ c < 9, Finset.image (fun r => out2 (r, c)) (Finset.range 9) = digits) ∧
    (∀ b < 9, Finset.image (fun d => out2 (box_cell b d)) (Finset.range 9) = digits) ∧
    (∀ p q : Cell, inRange p → inRange q → p ≠ q → SameGroup p q →
      out2 p ≠ out2 q) := by
  obtain ⟨hcomp, hdig, hS⟩ := sub_func_sound g fuel os (initState g) true
    (initState_inv hg) (Or.inl rfl) (initState_sinv hval) out2 h
  have hfull : ∀ q : Cell, inRange q → out2 q ≠ 0 := is_sudoku_complete_true.mp hcomp
  have hdist : ∀ p q : Cell, inRange p → inRange q → p ≠ q → SameGroup p q →
      out2 p ≠ out2 q := fun p q hp hq hne hgr =>
    hS.distinct p q hp hq hne hgr (hfull p hp) (hfull q hq)
  refine ⟨hfull, hS.agrees, ?_, ?_, ?_, hdist⟩
  · intro r hr
    exact group_image_digits (fun i hi => ⟨hr, hi⟩)
      (fun i hi j hj hne he => hne (congrArg Prod.snd he))
      (fun i hi j hj => Or.inl rfl) hdig hdist
  · intro c hc
    exact group_image_digits (fun i hi => ⟨hi, hc⟩)
      (fun i hi j hj hne he => hne (congrArg Prod.fst he))
      (fun i hi j hj => Or.inr (Or.inl rfl)) hdig hdist
  · intro b hb
    refine group_image_digits (fun i hi => box_cell_inRange hb hi)
      (fun i hi j hj hne he => ?_)
      (fun i hi j hj => Or.inr (Or.inr ?_)) hdig hdist
    · apply hne
      have h1 := congrArg Prod.fst he
      have h2 := congrArg Prod.snd he
      unfold box_cell box2start_row_col at h1 h2
      simp only at h1 h2
      omega
    · rw [row_col2box_box_cell hb hi, row_col2box_box_cell hb hj]

/-- Counterexample to C1 as stated: the claim quantified over every
starting grid, but on the invalid complete grid `badS` (two 2s in row 0)
the solver immediately reports the grid itself as solved, and row 0 does
not consist of the digits 1–9: squares (0,0) and (0,1) both hold 2. -/
theorem claim_C1_counterexample :
    Digits9 badS ∧
    (sudoku_solver_sub_func 1 [] (initState badS) true).1 = SolveResult.solved badS ∧
    badS (0, 0) = 2 ∧ badS (0, 1) = 2 ∧ ((0, 0) : Cell) ≠ (0, 1) ∧
    SameGroup (0, 0) (0, 1) ∧
    Finset.image (fun c => badS (0, c)) (Finset.range 9) ≠ digits :=
  ⟨by decide, rfl, rfl, rfl, by decide, Or.inl rfl, by decide⟩

/-- Witness for the amended C1 at a concrete input. -/
theorem claim_C1_solver_sound_witness :
    Digits9 Sgrid ∧ is_valid_starting_grid Sgrid = true ∧
    (sudoku_solver_sub_func 1 [] (initState Sgrid) true).1 = SolveResult.solved Sgrid ∧
    ((∀ q : Cell, inRange q → Sgrid q ≠ 0) ∧
    (∀ q : Cell, inRange q → Sgrid q ≠ 0 → Sgrid q = Sgrid q) ∧
    (∀ r < 9, Finset.image (fun c => Sgrid (r, c)) (Finset.range 9) = digits) ∧
    (∀ c < 9, Finset.image (fun r => Sgrid (r, c)) (Finset.range 9) = digits) ∧
    (∀ b < 9, Finset.image (fun d => Sgrid (box_cell b d)) (Finset.range 9) = digits) ∧
    (∀ p q : Cell, inRange p → inRange q → p ≠ q → SameGroup p q →
      Sgrid p ≠ Sgrid q)) :=
  ⟨by decide, by decide, rfl,
    claim_C1_solver_sound Sgrid 1 [] Sgrid (by decide) (by decide) rfl⟩

lemma min_fold_none {og : OptionsGrid} :
    ∀ (l : List Cell), (∀ p ∈ l, ¬ 1 < (og p).card) →
    (l.foldl (fun acc p =>
      match acc with
      | none => if 1 < (og p).card then some (p, (og p).card) else none
      | some (q, m) =>
        if 1 < (og p).card ∧ (og p).card < m then some (p, (og p).card)
        else some (q, m)) none) = none := by
  intro l
  induction l with
  | nil =>
    intro _
    rfl
  | cons x l ih =>
    intro h
    rw [List.foldl_cons]
    have hx : ¬ 1 < (og x).card := h x (List.mem_cons_self x l)
    simp only [if_neg hx]
    exact ih (fun p hp => h p (List.mem_cons_of_mem x hp))

lemma minimum_options_square_none {og : OptionsGrid}
    (h : ∀ p : Cell, inRange p → ¬ 1 < (og p).card) :
    minimum_options_square og = none := by
  unfold minimum_options_square
  rw [min_fold_none rangeCells (fun p hp => h p (mem_rangeCells.mp hp))]
  rfl

/-- C2 exhibits a code bug: `G2grid` passes the validator, yet for every
fuel and every sequence of random scan orders the solve ends in
`minError` — the embedded image of the `NameError` that
`minimum_options_square` raises when no square has more than one option
(its `min_options_row` / `min_options_col` locals are never assigned).
The code crashes instead of returning the `False` failure signal the
claim (and the spec) require. -/
theorem claim_C2_crash (fuel : ℕ) (os : List RandOrder) (hf : 1 ≤ fuel) :
    Digits9 G2grid ∧ is_valid_starting_grid G2grid = true ∧
    (sudoku_solver_sub_func fuel os (initState G2grid) true).1 =
      SolveResult.minError := by
  refine ⟨by decide, by decide, ?_⟩
  have hcard9 : ∀ r < 9, ∀ c < 9,
      ¬ 1 < (initial_options G2grid (r, c)).card := by decide
  have hcard : ∀ p : Cell, inRange p → ¬ 1 < ((initState G2grid).og p).card := by
    intro p hp
    have := hcard9 p.1 hp.1 p.2 hp.2
    rwa [Prod.mk.eta] at this
  have hpend : (initState G2grid).pend = [] := rfl
  have hsop : single_option_processing 82 (initState G2grid) =
      SopResult.ok (initState G2grid) := rfl
  have hcomp : is_sudoku_complete (initState G2grid).out = false := by decide
  have hscan : ∀ o : RandOrder,
      grid_scanning (toCells o) (initState G2grid).og (initState G2grid).pend =
        (false, (initState G2grid).og, (initState G2grid).pend) := by
    intro o
    rcases hfound : (grid_scanning (toCells o) (initState G2grid).og
        (initState G2grid).pend).1 with _ | _
    · obtain ⟨h1, h2⟩ := (grid_scanning_spec _ _ _).2 hfound
      exact Prod.ext_iff.mpr ⟨hfound, Prod.ext_iff.mpr ⟨h1, h2⟩⟩
    · exfalso
      obtain ⟨p, d, hmem, hc, _⟩ := (grid_scanning_spec _ _ _).1 hfound
      exact hcard p (toCells_inRange p hmem) hc
  have hmin : minimum_options_square (initState G2grid).og = none :=
    minimum_options_square_none hcard
  have hloop : ∀ (lf : ℕ) (os2 : List RandOrder),
      solver_loop (lf + 2) os2 (initState G2grid) true =
        (.stalled (initState G2grid), (popOrder os2).2) := by
    intro lf os2
    rw [solver_loop, if_pos (Or.inr rfl), hsop]
    simp only [hcomp, Bool.false_eq_true, if_false]
    rw [hscan (popOrder os2).1]
    rw [solver_loop, if_neg]
    intro hcon
    rcases hcon with hcon | hcon
    · exact hcon hpend
    · cases hcon
  obtain ⟨fuel, rfl⟩ : ∃ k, fuel = k + 1 := ⟨fuel - 1, by omega⟩
  rw [sub_func_succ_eq]
  have h85 : (85 : ℕ) = 83 + 2 := rfl
  rw [h85, hloop 83 os]
  simp only [hmin]

/-- Witness for the C2 crash theorem: applied at fuel 1 with an empty
list of random orders, with the fuel hypothesis discharged concretely. -/
theorem claim_C2_crash_witness :
    1 ≤ 1 ∧ (Digits9 G2grid ∧ is_valid_starting_grid G2grid = true ∧
      (sudoku_solver_sub_func 1 [] (initState G2grid) true).1 =
        SolveResult.minError) :=
  ⟨by decide, claim_C2_crash 1 [] (by decide)⟩

/-- C6: for every starting grid of digits, the recursive solve with fuel
one more than the number of unknown squares never exhausts its fuel: the
recursion depth is bounded by the number of unknown (zero) squares of the
starting grid, which is itself at most 81.  The bound holds for every
sequence of scan orders. -/
theorem claim_C6_depth_bound (g : StartingGrid) (hg : Digits9 g)
    (os : List RandOrder) :
    zerosCount g ≤ 81 ∧
    (sudoku_solver_sub_func (zerosCount g + 1) os (initState g) true).1 ≠
      SolveResult.fuelOut := by
  refine ⟨zerosCount_le_81 g, ?_⟩
  have h := (sub_func_safe g (zerosCount g + 1) os (initState g) true
    (initState_inv hg) (Or.inl rfl)).2
  have hze : zerosCount (initState g).out = zerosCount g := rfl
  exact h (Or.inl ⟨rfl, by omega⟩)

/-- Witness for C6 at a concrete input. -/
theorem claim_C6_depth_bound_witness :
    Digits9 Sgrid ∧
    (zerosCount Sgrid ≤ 81 ∧
      (sudoku_solver_sub_func (zerosCount Sgrid + 1) [] (initState Sgrid) true).1 ≠
        SolveResult.fuelOut) :=
  ⟨by decide, claim_C6_depth_bound Sgrid (by decide) []⟩

/-- C9: on every validator-passing digit grid, every square of the
initial pending set holds exactly one option, this property is an
invariant of every state the solver builds (the `SolverInv` lemmas), and
consequently the 1-element destructuring assignment in
`single_option_processing` never fails: the solve never returns the
`popError` marker, for any fuel and any scan orders. -/
theorem claim_C9_pop_safe (g : StartingGrid) (hg : Digits9 g)
    (hval : is_valid_starting_grid g = true) (fuel : ℕ) (os : List RandOrder) :
    (∀ p ∈ (initState g).pend, ((initState g).og p).card = 1) ∧
    (sudoku_solver_sub_func fuel os (initState g) true).1 ≠
      SolveResult.popError := by
  refine ⟨fun p hp => ((initState_inv hg).pendCard p hp).1, ?_⟩
  exact (sub_func_safe g fuel os (initState g) true
    (initState_inv hg) (Or.inl rfl)).1

/-- Witness for C9 at a concrete input. -/
theorem claim_C9_pop_safe_witness :
    (Digits9 Sgrid ∧ is_valid_starting_grid Sgrid = true) ∧
    ((∀ p ∈ (initState Sgrid).pend, ((initState Sgrid).og p).card = 1) ∧
      (sudoku_solver_sub_func 3 [] (initState Sgrid) true).1 ≠
        SolveResult.popError) :=
  ⟨⟨by decide, by decide⟩, claim_C9_pop_safe Sgrid (by decide) (by decide) 3 []⟩

lemma box_cell_injective {b d1 d2 : ℕ} (h1 : d1 < 9) (h2 : d2 < 9)
    (hne : d1 ≠ d2) : box_cell b d1 ≠ box_cell b d2 := by
  intro he
  apply hne
  have e1 := congrArg Prod.fst he
  have e2 := congrArg Prod.snd he
  unfold box_cell box2start_row_col at e1 e2
  simp only at e1 e2
  omega

lemma solution_digits9 {g : StartingGrid} {sol : OutputGrid}
    (hs : IsSolutionOf sol g) : Digits9 g := by
  intro r hr c hc
  by_cases h0 : g (r, c) = 0
  · omega
  · have he := hs.2.2 r hr c hc h0
    have hd := hs.1 r hr c hc
    rw [he, mem_digits] at hd
    omega

lemma solution_valid {g : StartingGrid} {sol : OutputGrid}
    (hs : IsSolutionOf sol g) : is_valid_starting_grid g = true := by
  apply (is_valid_iff_groupNoDup g).mpr
  refine ⟨?_, ?_, ?_⟩
  · intro r hr i hi j hj hne h0 heq
    simp only [] at h0 heq
    have hj0 : g (r, j) ≠ 0 := by rw [← heq]; exact h0
    have hne2 : ((r, i) : Cell) ≠ (r, j) := fun he => hne (congrArg Prod.snd he)
    apply hs.2.1 r hr i hi r hr j hj hne2 (Or.inl rfl)
    rw [hs.2.2 r hr i hi h0, hs.2.2 r hr j hj hj0]
    exact heq
  · intro c hc i hi j hj hne h0 heq
    simp only [] at h0 heq
    have hj0 : g (j, c) ≠ 0 := by rw [← heq]; exact h0
    have hne2 : ((i, c) : Cell) ≠ (j, c) := fun he => hne (congrArg Prod.fst he)
    apply hs.2.1 i hi c hc j hj c hc hne2 (Or.inr (Or.inl rfl))
    rw [hs.2.2 i hi c hc h0, hs.2.2 j hj c hc hj0]
    exact heq
  · intro b hb i hi j hj hne h0 heq
    simp only [] at h0 heq
    have hj0 : g (box_cell b j) ≠ 0 := by rw [← heq]; exact h0
    have hpr := box_cell_inRange hb hi
    have hqr := box_cell_inRange hb hj
    have hne2 : box_cell b i ≠ box_cell b j := box_cell_injective hi hj hne
    have hgr : SameGroup (box_cell b i) (box_cell b j) := by
      refine Or.inr (Or.inr ?_)
      rw [row_col2box_box_cell hb hi, row_col2box_box_cell hb hj]
    have happ := hs.2.1 (box_cell b i).1 hpr.1 (box_cell b i).2 hpr.2
      (box_cell b j).1 hqr.1 (box_cell b j).2 hqr.2
    rw [Prod.mk.eta, Prod.mk.eta] at happ
    apply happ hne2 hgr
    have ha1 := hs.2.2 (box_cell b i).1 hpr.1 (box_cell b i).2 hpr.2
    have ha2 := hs.2.2 (box_cell b j).1 hqr.1 (box_cell b j).2 hqr.2
    rw [Prod.mk.eta] at ha1 ha2
    rw [ha1 h0, ha2 hj0]
    exact heq

lemma solved_is_solution {g : StartingGrid} {out2 : OutputGrid}
    (hcomp : is_sudoku_complete out2 = true)
    (hdig : ∀ q : Cell, inRange q → out2 q ∈ digits)
    (hS : SInv g out2) : IsSolutionOf out2 g := by
  refine ⟨fun r hr c hc => hdig (r, c) ⟨hr, hc⟩, ?_,
    fun r hr c hc h0 => hS.agrees (r, c) ⟨hr, hc⟩ h0⟩
  intro r1 h1 c1 h2 r2 h3 c2 h4 hne hgr
  have ha := is_sudoku_complete_true.mp hcomp (r1, c1) ⟨h1, h2⟩
  have hb := is_sudoku_complete_true.mp hcomp (r2, c2) ⟨h3, h4⟩
  exact hS.distinct (r1, c1) (r2, c2) ⟨h1, h2⟩ ⟨h3, h4⟩ hne hgr ha hb

/-- C5: if the starting grid admits exactly one solution, then any two
runs of the solver — for every pair of fuel values and of random scan
order sequences — that return successfully return the same solved grid. -/
theorem claim_C5_determinism (g : StartingGrid) (f1 f2 : ℕ)
    (os1 os2 : List RandOrder) (g1 g2 : OutputGrid)
    (hex : ∃ sol, IsSolutionOf sol g)
    (huniq : ∀ s1 s2 : OutputGrid, IsSolutionOf s1 g → IsSolutionOf s2 g →
      ∀ r < 9, ∀ c < 9, s1 (r, c) = s2 (r, c))
    (h1 : (sudoku_solver_sub_func f1 os1 (initState g) true).1 = .solved g1)
    (h2 : (sudoku_solver_sub_func f2 os2 (initState g) true).1 = .solved g2) :
    ∀ r < 9, ∀ c < 9, g1 (r, c) = g2 (r, c) := by
  obtain ⟨sol, hsol⟩ := hex
  have hg := solution_digits9 hsol
  have hval := solution_valid hsol
  obtain ⟨ca, da, sa⟩ := sub_func_sound g f1 os1 (initState g) true
    (initState_inv hg) (Or.inl rfl) (initState_sinv hval) g1 h1
  obtain ⟨cb, db, sb⟩ := sub_func_sound g f2 os2 (initState g) true
    (initState_inv hg) (Or.inl rfl) (initState_sinv hval) g2 h2
  exact huniq g1 g2 (solved_is_solution ca da sa) (solved_is_solution cb db sb)

/-- Witness for C5 at a concrete input: the already-solved grid has
exactly one solution (itself), and two runs with different scan orders
both return it. -/
theorem claim_C5_determinism_witness :
    (∃ sol, IsSolutionOf sol Sgrid) ∧
    (∀ s1 s2 : OutputGrid, IsSolutionOf s1 Sgrid → IsSolutionOf s2 Sgrid →
      ∀ r < 9, ∀ c < 9, s1 (r, c) = s2 (r, c)) ∧
    (sudoku_solver_sub_func 1 [] (initState Sgrid) true).1 =
      SolveResult.solved Sgrid ∧
    (sudoku_solver_sub_func 2 [defaultScanOrder] (initState Sgrid) true).1 =
      SolveResult.solved Sgrid ∧
    ∀ r < 9, ∀ c < 9, Sgrid (r, c) = Sgrid (r, c) := by
  have hnz : ∀ r < 9, ∀ c < 9, Sgrid (r, c) ≠ 0 := by decide
  have huniq : ∀ s1 s2 : OutputGrid, IsSolutionOf s1 Sgrid → IsSolutionOf s2 Sgrid →
      ∀ r < 9, ∀ c < 9, s1 (r, c) = s2 (r, c) := by
    intro s1 s2 hs1 hs2 r hr c hc
    rw [hs1.2.2 r hr c hc (hnz r hr c hc), hs2.2.2 r hr c hc (hnz r hr c hc)]
  refine ⟨⟨Sgrid, by decide⟩, huniq, rfl, rfl, ?_⟩
  exact claim_C5_determinism Sgrid 1 2 [] [defaultScanOrder] Sgrid Sgrid
    ⟨Sgrid, by decide⟩ huniq rfl rfl

lemma sop_heap_frame : ∀ (fuel : ℕ) (st : HeapState),
    (single_option_processing_heap fuel st).2.addr = st.addr ∧
    (single_option_processing_heap fuel st).2.nextAddr = st.nextAddr ∧
    ∀ a, a ≠ st.addr → (single_option_processing_heap fuel st).2.heap a = st.heap a := by
  intro fuel
  induction fuel with
  | zero => exact fun st => ⟨rfl, rfl, fun a _ => rfl⟩
  | succ n ih =>
    rintro ⟨heap, next, addr, og, pend⟩
    match pend with
    | [] => exact ⟨rfl, rfl, fun a _ => rfl⟩
    | p :: rest =>
      simp only [single_option_processing_heap]
      split
      · split
        · exact ⟨rfl, rfl, fun a ha => Function.update_noteq ha _ _⟩
        · exact ⟨(ih _).1, (ih _).2.1,
            fun a ha => ((ih _).2.2 a ha).trans (Function.update_noteq ha _ _)⟩
      · exact ⟨rfl, rfl, fun a _ => rfl⟩

lemma loop_heap_frame : ∀ (lf : ℕ) (os : List RandOrder) (st : HeapState) (ft : Bool),
    (solver_loop_heap lf os st ft).2.1.addr = st.addr ∧
    (solver_loop_heap lf os st ft).2.1.nextAddr = st.nextAddr ∧
    ∀ a, a ≠ st.addr → (solver_loop_heap lf os st ft).2.1.heap a = st.heap a := by
  intro lf
  induction lf with
  | zero => exact fun os st ft => ⟨rfl, rfl, fun a _ => rfl⟩
  | succ n ih =>
    intro os st ft
    simp only [solver_loop_heap]
    split
    · obtain ⟨s1, s2, s3⟩ := sop_heap_frame 82 st
      split
      · rename_i st2 os2 heq
        rw [heq] at s1 s2 s3
        exact ⟨s1, s2, s3⟩
      · rename_i st2 os2 heq
        rw [heq] at s1 s2 s3
        exact ⟨s1, s2, s3⟩
      · rename_i st2 os2 heq
        rw [heq] at s1 s2 s3
        exact ⟨s1, s2, s3⟩
      · rename_i st2 heq
        rw [heq] at s1 s2 s3
        split
        · exact ⟨s1, s2, s3⟩
        · obtain ⟨h1, h2, h3⟩ := ih (popOrder os).2
            ⟨st2.heap, st2.nextAddr, st2.addr,
              (grid_scanning (toCells (popOrder os).1) st2.og st2.pend).2.1,
              (grid_scanning (toCells (popOrder os).1) st2.og st2.pend).2.2⟩ false
          refine ⟨h1.trans s1, h2.trans s2, fun a ha => ?_⟩
          have ha2 : a ≠ st2.addr := by rw [s1]; exact ha
          exact ((h3 a ha2).trans (s3 a ha))
    · exact ⟨rfl, rfl, fun a _ => rfl⟩

lemma try_branches_heap_frame
    (F : List RandOrder → HeapState → (STagH × HeapState) × List RandOrder)
    (HF : ∀ (os3 : List RandOrder) (st3 : HeapState),
      st3.nextAddr ≤ ((F os3 st3).1.2).nextAddr ∧
      ∀ a, a < st3.nextAddr → a ≠ st3.addr →
        ((F os3 st3).1.2).heap a = st3.heap a)
    (og : OptionsGrid) (paddr : ℕ) (pend : List Cell) (p : Cell) :
    ∀ (vs : List ℕ) (os : List RandOrder) (h : ℕ → OutputGrid) (n : ℕ),
      n ≤ ((try_branches_heap F og paddr pend p vs os h n).1.2).nextAddr ∧
      ∀ a, a < n →
        ((try_branches_heap F og paddr pend p vs os h n).1.2).heap a = h a := by
  intro vs
  induction vs with
  | nil => exact fun os h n => ⟨le_refl n, fun a _ => rfl⟩
  | cons v vs ih =>
    intro os h n
    obtain ⟨hf1, hf2⟩ := HF os ⟨Function.update h n (h paddr), n + 1, n,
      Function.update og p {v}, addPend p pend⟩
    simp only [try_branches_heap]
    split
    · rename_i st2 os2 heq
      rw [heq] at hf1 hf2
      obtain ⟨h1, h2⟩ := ih os2 st2.heap st2.nextAddr
      refine ⟨le_trans (le_trans (Nat.le_succ n) hf1) h1, fun a ha => ?_⟩
      have ha1 : a < st2.nextAddr := lt_of_lt_of_le (Nat.lt_succ_of_lt ha) hf1
      have ha2 : st2.heap a = h a := by
        have := hf2 a (Nat.lt_succ_of_lt ha) (Nat.ne_of_lt ha)
        rw [this]
        exact Function.update_noteq (Nat.ne_of_lt ha) _ _
      exact (h2 a ha1).trans ha2
    · rename_i hne
      refine ⟨le_trans (Nat.le_succ n) hf1, fun a ha => ?_⟩
      have := hf2 a (Nat.lt_succ_of_lt ha) (Nat.ne_of_lt ha)
      rw [this]
      exact Function.update_noteq (Nat.ne_of_lt ha) _ _

lemma sub_func_heap_succ_eq (fuel : ℕ) (os : List RandOrder) (st : HeapState)
    (ft : Bool) :
    sudoku_solver_sub_func_heap (fuel + 1) os st ft =
      match solver_loop_heap 85 os st ft with
      | (.solved, st2, os2) => ((.solved, st2), os2)
      | (.failed, st2, os2) => ((.unsolvable, st2), os2)
      | (.popError, st2, os2) => ((.popError, st2), os2)
      | (.fuelOut, st2, os2) => ((.fuelOut, st2), os2)
      | (.stalled, st2, os2) =>
        match minimum_options_square st2.og with
        | none => ((.minError, st2), os2)
        | some p =>
          try_branches_heap
            (fun os3 st3 => sudoku_solver_sub_func_heap fuel os3 st3 false)
            st2.og st2.addr st2.pend p (Finset.sort (· ≤ ·) (st2.og p)) os2
            st2.heap st2.nextAddr := rfl

lemma sub_func_heap_frame : ∀ (fuel : ℕ) (os : List RandOrder) (st : HeapState)
    (ft : Bool),
    st.nextAddr ≤ ((sudoku_solver_sub_func_heap fuel os st ft).1.2).nextAddr ∧
    ∀ a, a < st.nextAddr → a ≠ st.addr →
      ((sudoku_solver_sub_func_heap fuel os st ft).1.2).heap a = st.heap a := by
  intro fuel
  induction fuel with
  | zero => exact fun os st ft => ⟨le_refl _, fun a _ _ => rfl⟩
  | succ n ih =>
    intro os st ft
    obtain ⟨l1, l2, l3⟩ := loop_heap_frame 85 os st ft
    rcases hloop : solver_loop_heap 85 os st ft with ⟨lr, st2, os2⟩
    rw [hloop] at l1 l2 l3
    rw [sub_func_heap_succ_eq, hloop]
    cases lr with
    | solved => exact ⟨le_of_eq l2.symm, fun a _ ha => l3 a ha⟩
    | failed => exact ⟨le_of_eq l2.symm, fun a _ ha => l3 a ha⟩
    | popError => exact ⟨le_of_eq l2.symm, fun a _ ha => l3 a ha⟩
    | fuelOut => exact ⟨le_of_eq l2.symm, fun a _ ha => l3 a ha⟩
    | stalled =>
      rcases hmin : minimum_options_square st2.og with _ | p
      · simp only [hmin]
        exact ⟨le_of_eq l2.symm, fun a _ ha => l3 a ha⟩
      · obtain ⟨t1, t2⟩ := try_branches_heap_frame
          (fun os3 st3 => sudoku_solver_sub_func_heap n os3 st3 false)
          (fun os3 st3 => ih os3 st3 false)
          st2.og st2.addr st2.pend p (Finset.sort (· ≤ ·) (st2.og p)) os2
          st2.heap st2.nextAddr
        simp only [hmin]
        refine ⟨le_of_eq l2.symm |>.trans t1, fun a han ha => ?_⟩
        have han2 : a < st2.nextAddr := by
          have hx : st2.nextAddr = st.nextAddr := l2
          rw [hx]
          exact han
        exact (t2 a han2).trans (l3 a ha)

/-- C7: the caller-provided starting grid is never mutated.  In the
heap-level embedding, where output-grid objects have explicit addresses
and the starting grid is the object at address 0, a complete run of
`sudoku_solver_heap` — line 158's deepcopy, `initialise_grid`, and all
recursive propagation and branching, for every fuel, every sequence of
random scan orders and every starting grid — leaves every cell of the
object at address 0 holding its original value. -/
theorem claim_C7_frame (fuel : ℕ) (os : List RandOrder) (g : StartingGrid)
    (p : Cell) :
    ((sudoku_solver_heap fuel os g).1.2).heap 0 p = g p := by
  obtain ⟨_, h2⟩ := sub_func_heap_frame fuel os
    ⟨Function.update (fun a => if a = 0 then g else fun _ => 0) 1 g, 2, 1,
      (initialise_grid g).2, (initialise_grid g).1⟩ true
  have h0 := h2 0 (show (0 : ℕ) < 2 by omega) (show (0 : ℕ) ≠ 1 by omega)
  simp only [sudoku_solver_heap]
  rw [h0]
  rfl
